import Mathlib

/-!
# Verification of the Clue deduction ledger (`ledger.py`)

A shallow embedding of the `Ledger` class from `ledger.py`: the belief
matrix `Ledger._sheet` is a list of 21 rows (one per member of the `Card`
enumeration of `pieces.py`), each row a list of one cell per player.  A
cell is a Python set of integers: the sentinel set `{-1}` means the player
holds the card (`YES`), `{-2}` means they do not (`NO`), and any other set
holds the ids of unresolved disproved suggestions ("claim groups").  We
model a cell as a `Finset ℤ`, which matches Python's value semantics for
`set` equality, and the sheet as a `List (List (Finset ℤ))`.
-/

set_option autoImplicit false
set_option maxRecDepth 8000

namespace Clue

/-- A game card, identified by its `IntEnum` ordinal in `pieces.py`
(0–5 suspects, 6–11 weapons, 12–20 rooms). -/
abbrev Card := Fin 21

/-- `Card.__members__.values()` in definition (= numeric) order. -/
def cardList : List Card := List.finRange 21

/-- Suspect cards (`SUSPECTS` in `pieces.py`). -/
def SUSPECTS : List Card := [0, 1, 2, 3, 4, 5]

/-- Weapon cards (`WEAPONS` in `pieces.py`). -/
def WEAPONS : List Card := [6, 7, 8, 9, 10, 11]

/-- Room cards (`ROOMS` in `pieces.py`). -/
def ROOMS : List Card := [12, 13, 14, 15, 16, 17, 18, 19, 20]

/-- Sentinel entry `Ledger.YES = {-1}`: player has card. -/
def YES : Finset ℤ := {-1}

/-- Sentinel entry `Ledger.NO = {-2}`: player doesn't have card. -/
def NO : Finset ℤ := {-2}

/-- A cell is "unknown": neither the `YES` nor the `NO` sentinel. -/
def Unk (e : Finset ℤ) : Prop := e ≠ YES ∧ e ≠ NO

instance (e : Finset ℤ) : Decidable (Unk e) := instDecidableAnd

/-- The belief matrix `Ledger._sheet`: one row per card, one cell per
player. -/
abbrev Sheet := List (List (Finset ℤ))

/-- Read the cell `self._sheet[card][player_index]`. -/
def cell (s : Sheet) (c : Card) (p : ℕ) : Finset ℤ :=
  (s.getD c.val []).getD p ∅

/-- Assign the cell `self._sheet[card][player_index] = v`. -/
def setCell (s : Sheet) (c : Card) (p : ℕ) (v : Finset ℤ) : Sheet :=
  s.set c.val ((s.getD c.val []).set p v)

/-- `Ledger._mark_no`: set the entry for the given card and player to `NO`. -/
def mark_no (s : Sheet) (c : Card) (p : ℕ) : Sheet :=
  setCell s c p NO

/-- The id-subtraction loop of `Ledger._mark_yes`: subtract `d` from the
entry in column `p` of every row.  (`_mark_yes` skips the row being marked,
but then overwrites it with `YES`, so subtracting there too is harmless.) -/
def subCol (d : Finset ℤ) (p : ℕ) : Sheet → Sheet
  | [] => []
  | row :: rest => row.set p (row.getD p ∅ \ d) :: subCol d p rest

/-- `Ledger._mark_yes`: subtract the card's current disproof ids from every
other cell in the player's column, then set the cell to `YES`. -/
def mark_yes (s : Sheet) (c : Card) (p : ℕ) : Sheet :=
  setCell (subCol (cell s c p) p s) c p YES

/-- `Ledger._mark`: dispatch on the value being written. -/
def mark (s : Sheet) (c : Card) (p : ℕ) (v : Finset ℤ) : Sheet :=
  if v = NO then mark_no s c p
  else if v = YES then mark_yes s c p
  else setCell s c p v

/-- `Ledger._fill_row`: fill all non-`YES`/`NO` entries of a row with `v`,
reporting whether anything changed. -/
def fill_row (n : ℕ) (s : Sheet) (row : Card) (v : Finset ℤ) : Sheet × Bool :=
  (List.range n).foldl
    (fun acc p =>
      if cell acc.1 row p ≠ YES ∧ cell acc.1 row p ≠ NO then
        (mark acc.1 row p v, true)
      else acc)
    (s, false)

/-- `Ledger._fill_column`: fill all non-`YES`/`NO` entries of a column with
`v`, reporting whether anything changed. -/
def fill_column (s : Sheet) (col : ℕ) (v : Finset ℤ) : Sheet × Bool :=
  cardList.foldl
    (fun acc c =>
      if cell acc.1 c col ≠ YES ∧ cell acc.1 c col ≠ NO then
        (mark acc.1 c col v, true)
      else acc)
    (s, false)

/-- `Ledger._is_possible`: no player's entry for the card is `YES`. -/
def is_possible (n : ℕ) (s : Sheet) (c : Card) : Bool :=
  !((List.range n).any fun p => decide (cell s c p = YES))

/-- `Ledger._is_solution`: every player's entry for the card is `NO`. -/
def is_solution (n : ℕ) (s : Sheet) (c : Card) : Bool :=
  (List.range n).all fun p => decide (cell s c p = NO)

/-- Loop body of `Ledger._find_possible_cards` (with its early `break` on a
confirmed solution card, which discards cards collected so far). -/
def findPossibleAux (n : ℕ) (s : Sheet) : List Card → List Card → List Card
  | acc, [] => acc
  | acc, c :: rest =>
    if is_solution n s c then [c]
    else if is_possible n s c then findPossibleAux n s (acc ++ [c]) rest
    else findPossibleAux n s acc rest

/-- `Ledger._find_possible_cards`. -/
def find_possible_cards (n : ℕ) (s : Sheet) (cards : List Card) : List Card :=
  findPossibleAux n s [] cards

/-- `Ledger.solve`: the solution triple, or `none` if ambiguous. -/
def solve (n : ℕ) (s : Sheet) : Option (Card × Card × Card) :=
  match find_possible_cards n s SUSPECTS, find_possible_cards n s WEAPONS,
      find_possible_cards n s ROOMS with
  | [a], [b], [c] => some (a, b, c)
  | _, _, _ => none

/-- All disproof ids attached to non-`YES`/`NO` cells of a column. -/
def openIds (s : Sheet) (p : ℕ) : Finset ℤ :=
  (Finset.univ : Finset Card).biUnion fun c =>
    if cell s c p ≠ YES ∧ cell s c p ≠ NO then cell s c p else ∅

/-- The elements of a finite set of integers in ascending order (insertion
sort, so that it evaluates by kernel reduction). -/
def sortIds (t : Finset ℤ) : List ℤ :=
  Quot.liftOn t.val (List.insertionSort (· ≤ ·)) fun a b h =>
    List.eq_of_perm_of_sorted
      ((List.perm_insertionSort _ a).trans
        (h.trans (List.perm_insertionSort _ b).symm))
      (List.sorted_insertionSort _ a) (List.sorted_insertionSort _ b)

/-- `Ledger._get_disproof_id_map`: each open id with the cards it is still
attached to for the given player.  Python's dict iteration order depends on
set iteration order; we canonicalise to ascending id order. -/
def get_disproof_id_map (s : Sheet) (p : ℕ) : List (ℤ × List Card) :=
  (sortIds (openIds s p)).map fun g =>
    (g, cardList.filter fun c =>
      decide ((cell s c p ≠ YES ∧ cell s c p ≠ NO) ∧ g ∈ cell s c p))

/-- The `while new_id in current_ids` loop of `Ledger._new_disproof_id`. -/
def newIdAux (keys : Finset ℤ) : ℕ → ℤ → ℤ
  | 0, i => i
  | fuel + 1, i => if i ∈ keys then newIdAux keys fuel (i + 1) else i

/-- `Ledger._new_disproof_id`: smallest positive integer id not currently
open for the player. -/
def new_disproof_id (s : Sheet) (p : ℕ) : ℤ :=
  newIdAux (openIds s p) ((openIds s p).card + 1) 1

/-- The `already_shown` scan of `Ledger._mark_other_shown`. -/
def alreadyShown (s : Sheet) (cards : List Card) (p : ℕ) : Bool :=
  cards.any fun c => decide (cell s c p = YES)

/-- `Ledger._mark_other_shown`: open a claim group for the showing player
unless one of the suggested cards is already `YES` for them. -/
def mark_other_shown (s : Sheet) (cards : List Card) (p : ℕ) : Sheet :=
  if alreadyShown s cards p then s
  else
    let d := new_disproof_id s p
    cards.foldl
      (fun t c =>
        if cell t c p ≠ NO then setCell t c p (insert d (cell t c p)) else t)
      s

/-- `Ledger._mark_player_shown`. -/
def mark_player_shown (s : Sheet) (shown : Card) (p : ℕ) : Sheet :=
  mark_yes s shown p

/-- `Ledger._get_player_index`: first index with the given name, or an
error (`None` here) when no player matches. -/
def get_player_index (players : List String) (name : String) : Option ℕ :=
  match players with
  | [] => none
  | v :: rest =>
    if name = v then some 0 else (get_player_index rest name).map (· + 1)

/-- `Ledger._simplify_known_holders` (rule 1): a row with a `YES` is filled
`NO` elsewhere. -/
def simplify_known_holders (n : ℕ) (s : Sheet) : Sheet × Bool :=
  cardList.foldl
    (fun acc c =>
      if (List.range n).any (fun p => decide (cell acc.1 c p = YES)) then
        let fr := fill_row n acc.1 c NO
        (fr.1, fr.2 || acc.2)
      else acc)
    (s, false)

/-- `Ledger._simplify_max_no_counts` (rule 2). -/
def simplify_max_no_counts (n : ℕ) (hs : List ℕ) (s : Sheet) : Sheet × Bool :=
  (List.range n).foldl
    (fun acc p =>
      if cardList.countP (fun c => decide (cell acc.1 c p = NO)) ≥
          acc.1.length - hs.getD p 0 then
        let fc := fill_column acc.1 p YES
        (fc.1, fc.2 || acc.2)
      else acc)
    (s, false)

/-- `Ledger._simplify_max_yes_counts` (rule 3). -/
def simplify_max_yes_counts (n : ℕ) (hs : List ℕ) (s : Sheet) : Sheet × Bool :=
  (List.range n).foldl
    (fun acc p =>
      if cardList.countP (fun c => decide (cell acc.1 c p = YES)) ≥
          hs.getD p 0 then
        let fc := fill_column acc.1 p NO
        (fc.1, fc.2 || acc.2)
      else acc)
    (s, false)

/-- The owner-finding scan of `Ledger._simplify_solved_category`: the only
possible owner of a card, if exactly one remains and none is `YES`. -/
def findOwnerAux (s : Sheet) (c : Card) : List ℕ → Option ℕ → Option ℕ
  | [], acc => acc
  | p :: rest, acc =>
    if cell s c p = YES then none
    else if cell s c p ≠ NO then
      match acc with
      | none => findOwnerAux s c rest (some p)
      | some _ => none
    else findOwnerAux s c rest acc

/-- `find_owner n s c`: index of the sole possible owner of card `c`. -/
def find_owner (n : ℕ) (s : Sheet) (c : Card) : Option ℕ :=
  findOwnerAux s c (List.range n) none

/-- `Ledger._simplify_solved_category` (rule 4, one category). -/
def simplify_solved_category (n : ℕ) (s : Sheet) (cat : List Card) :
    Sheet × Bool :=
  match cat.find? (fun c => is_solution n s c) with
  | none => (s, false)
  | some sol =>
    cat.foldl
      (fun acc c =>
        if c = sol then acc
        else
          match find_owner n acc.1 c with
          | some p => (mark_yes acc.1 c p, true)
          | none => acc)
      (s, false)

/-- `Ledger._simplify_solved_categories` (rule 4). -/
def simplify_solved_categories (n : ℕ) (s : Sheet) : Sheet × Bool :=
  let a := simplify_solved_category n s SUSPECTS
  let b := simplify_solved_category n a.1 WEAPONS
  let c := simplify_solved_category n b.1 ROOMS
  (c.1, a.2 || b.2 || c.2)

/-- `Ledger._simplify_single_possible` (rule 5, one category). -/
def simplify_single_possible (n : ℕ) (s : Sheet) (cat : List Card) :
    Sheet × Bool :=
  match find_possible_cards n s cat with
  | [x] => fill_row n s x NO
  | _ => (s, false)

/-- `Ledger._simplify_single_possibilities` (rule 5). -/
def simplify_single_possibilities (n : ℕ) (s : Sheet) : Sheet × Bool :=
  let a := simplify_single_possible n s SUSPECTS
  let b := simplify_single_possible n a.1 WEAPONS
  let c := simplify_single_possible n b.1 ROOMS
  (c.1, a.2 || b.2 || c.2)

/-- Rule 6 for a single player: resolve every claim group in the snapshot
map that has exactly one candidate card left. -/
def simplify_single_shown_one (s : Sheet) (p : ℕ) : Sheet × Bool :=
  (get_disproof_id_map s p).foldl
    (fun acc gc =>
      match gc.2 with
      | [x] => (mark_yes acc.1 x p, true)
      | _ => acc)
    (s, false)

/-- `Ledger._simplify_single_shown_cards` (rule 6). -/
def simplify_single_shown_cards (n : ℕ) (s : Sheet) : Sheet × Bool :=
  (List.range n).foldl
    (fun acc p =>
      let o := simplify_single_shown_one acc.1 p
      (o.1, o.2 || acc.2))
    (s, false)

/-- Cartesian product of a list of lists (`itertools.product`). -/
def listProd : List (List Card) → List (List Card)
  | [] => [[]]
  | xs :: rest => xs.flatMap fun x => (listProd rest).map fun ys => x :: ys

/-- `Ledger._has_sufficient_shown_cards` (rule 7 test): every way of picking
one candidate per open claim group yields at least `hand − #YES` distinct
cards. -/
def has_sufficient_shown_cards (hs : List ℕ) (s : Sheet) (p : ℕ) : Bool :=
  let yesCount := cardList.countP fun c => decide (cell s c p = YES)
  let hand := hs.getD p 0
  if yesCount < hand then
    (listProd ((get_disproof_id_map s p).map Prod.snd)).all fun seq =>
      decide (hand - yesCount ≤ seq.toFinset.card)
  else true

/-- `Ledger._simplify_sufficient_shown_cards` (rule 7). -/
def simplify_sufficient_shown_cards (n : ℕ) (hs : List ℕ) (s : Sheet) :
    Sheet × Bool :=
  (List.range n).foldl
    (fun acc p =>
      if has_sufficient_shown_cards hs acc.1 p then
        cardList.foldl
          (fun acc2 c =>
            if cell acc2.1 c p = (∅ : Finset ℤ) then (mark_no acc2.1 c p, true)
            else acc2)
          acc
      else acc)
    (s, false)

/-- One full pass of `Ledger._simplify`: all seven rules in order, with the
change flags combined by `any` (Python evaluates the whole tuple). -/
def runPass (n : ℕ) (hs : List ℕ) (s : Sheet) : Sheet × Bool :=
  let a := simplify_known_holders n s
  let b := simplify_max_no_counts n hs a.1
  let c := simplify_max_yes_counts n hs b.1
  let d := simplify_solved_categories n c.1
  let e := simplify_single_possibilities n d.1
  let f := simplify_single_shown_cards n e.1
  let g := simplify_sufficient_shown_cards n hs f.1
  (g.1, a.2 || b.2 || c.2 || d.2 || e.2 || f.2 || g.2)

/-- Count of non-`YES`/`NO` cells in one column. -/
def colUnknown (s : Sheet) (p : ℕ) : ℕ :=
  Finset.sum (Finset.univ : Finset Card) fun c =>
    if Unk (cell s c p) then 1 else 0

/-- Total id occurrences in non-`YES`/`NO` cells of one column. -/
def colOcc (s : Sheet) (p : ℕ) : ℕ :=
  Finset.sum (Finset.univ : Finset Card) fun c =>
    if Unk (cell s c p) then (cell s c p).card else 0

/-- Count of non-`YES`/`NO` cells in columns `0..n-1`. -/
def unknownCount (n : ℕ) (s : Sheet) : ℕ :=
  (Finset.range n).sum (colUnknown s)

/-- Total id occurrences in non-`YES`/`NO` cells of columns `0..n-1`. -/
def idOcc (n : ℕ) (s : Sheet) : ℕ :=
  (Finset.range n).sum (colOcc s)

/-- Termination measure for the fixed-point loop of `Ledger._simplify`. -/
def measureOf (n : ℕ) (s : Sheet) : ℕ :=
  (21 * n + 1) * idOcc n s + unknownCount n s

/-- The `while did_change` loop of `Ledger._simplify`, with explicit fuel. -/
def simplifyAux (n : ℕ) (hs : List ℕ) : ℕ → Sheet → Sheet
  | 0, s => s
  | fuel + 1, s =>
    let r := runPass n hs s
    if r.2 then simplifyAux n hs fuel r.1 else r.1

/-- `Ledger._simplify`: run passes until one produces no change.  The fuel
`measureOf n s + 1` is shown below to suffice for well-formed sheets. -/
def simplify (n : ℕ) (hs : List ℕ) (s : Sheet) : Sheet :=
  simplifyAux n hs (measureOf n s + 1) s

/-- The ledger object: roster, hand sizes, observer name, belief matrix. -/
structure Ledger where
  allPlayers : List String
  handSizes : List ℕ
  player : String
  sheet : Sheet
deriving DecidableEq

instance {ε α : Type} [DecidableEq ε] [DecidableEq α] :
    DecidableEq (Except ε α) := fun a b =>
  match a, b with
  | .error e1, .error e2 =>
    match decEq e1 e2 with
    | isTrue h => isTrue (by rw [h])
    | isFalse h => isFalse (fun hh => h (Except.error.inj hh))
  | .ok a1, .ok a2 =>
    match decEq a1 a2 with
    | isTrue h => isTrue (by rw [h])
    | isFalse h => isFalse (fun hh => h (Except.ok.inj hh))
  | .error _, .ok _ => isFalse (fun hh => Except.noConfusion hh)
  | .ok _, .error _ => isFalse (fun hh => Except.noConfusion hh)

/-- The ledger built by `Ledger.__init__` once validation has passed: the
observer's own rows get `YES` for the observer and `NO` for everyone else;
all other rows get `NO` for the observer and the empty set elsewhere. -/
def initLedger (allPlayers : List String) (handSizes : List ℕ)
    (player : String) (ownCards : List Card) (idx : ℕ) : Ledger :=
  { allPlayers := allPlayers, handSizes := handSizes, player := player
    sheet := cardList.map fun c =>
      if c ∈ ownCards then
        (List.range allPlayers.length).map fun p =>
          if p = idx then YES else NO
      else
        (List.range allPlayers.length).map fun p =>
          if p = idx then NO else ∅ }

/-- `Ledger.__init__`: validate the configuration (via `assert`) and build
the initial sheet from the observer's own cards. -/
def init (allPlayers : List String) (handSizes : List ℕ) (player : String)
    (ownCards : List Card) : Except String Ledger :=
  if allPlayers.length = handSizes.length then
    match get_player_index allPlayers player with
    | some idx =>
      if handSizes.getD idx 0 = ownCards.length then
        .ok (initLedger allPlayers handSizes player ownCards idx)
      else .error "assert: hand size does not match own cards"
    | none => .error "assert: player not in all_players"
  else .error "assert: hand_sizes length mismatch"

/-- The passing-players phase of `Ledger.update`: mark every suggested card
`NO` for every passing player, resolving names as Python does (inside the
inner loop, so an unknown name only raises once a card is processed). -/
def markPassing (players : List String) (cards : List Card)
    (passing : List String) (s : Sheet) : Except String Sheet :=
  passing.foldlM
    (fun t name =>
      cards.foldlM
        (fun t' c =>
          match get_player_index players name with
          | some i => .ok (mark_no t' c i)
          | none => .error ("No player with name: " ++ name))
        t)
    s

/-- The showing-player phase of `Ledger.update`. -/
def markShowing (players : List String) (self : String) (cards : List Card)
    (showing : Option String) (shown : Option Card) (s : Sheet) :
    Except String Sheet :=
  match showing with
  | none => .ok s
  | some nm =>
    match shown with
    | none =>
      match get_player_index players nm with
      | some i => .ok (mark_other_shown s cards i)
      | none => .error ("No player with name: " ++ nm)
    | some c =>
      if nm = self then .ok s
      else
        match get_player_index players nm with
        | some i => .ok (mark_player_shown s c i)
        | none => .error ("No player with name: " ++ nm)

/-- `Ledger.update`: ingest one observed suggestion event, then run the
rule engine to a fixed point. -/
def update (L : Ledger) (cards : List Card) (passing : List String)
    (showing : Option String) (shown : Option Card) : Except String Ledger := do
  let s1 ← markPassing L.allPlayers cards passing L.sheet
  let s2 ← markShowing L.allPlayers L.player cards showing shown s1
  .ok { L with sheet := simplify L.allPlayers.length L.handSizes s2 }

/-- A placeholder ledger used as the default of `Except.toOption.getD`. -/
def defaultLedger : Ledger := ⟨[], [], "", []⟩

/-- Extract the ledger from a successful construction or observation. -/
def getLedger (e : Except String Ledger) : Ledger :=
  e.toOption.getD defaultLedger

/-- Two-player game: observer `A` holds no cards, `B` holds two.  `B` opens
two disjoint claim groups. -/
def c2L0 : Ledger := getLedger (init ["A", "B"] [0, 2] "A" [])

def c2L1 : Ledger := getLedger (update c2L0 [0, 6, 12] [] (some "B") none)

def c2L2 : Ledger := getLedger (update c2L1 [1, 7, 13] [] (some "B") none)

/-- Two-player game in which `B` directly reveals cards 1 and 2, and then
card 1 is revealed a second time. -/
def c3L0 : Ledger := getLedger (init ["A", "B"] [0, 3] "A" [])

def c3L1 : Ledger := getLedger (update c3L0 [1, 6, 12] [] (some "B") (some 1))

def c3L2 : Ledger := getLedger (update c3L1 [2, 7, 13] [] (some "B") (some 2))

def c3L3 : Ledger := getLedger (update c3L2 [1, 6, 12] [] (some "B") (some 1))

/-- Two-player game for the amended `NO`-persistence statement. -/
def c3wL0 : Ledger := getLedger (init ["A", "B"] [1, 2] "A" [0])

def c3wL1 : Ledger :=
  getLedger (update c3wL0 [1, 6, 12] [] (some "B") (some 1))

/-- Two-player game: `B` reveals card 1, then `B` passes on a suggestion
containing card 1. -/
def c4L0 : Ledger := getLedger (init ["A", "B"] [0, 5] "A" [])

def c4L1 : Ledger := getLedger (update c4L0 [1, 6, 12] [] (some "B") (some 1))

def c4L2 : Ledger := getLedger (update c4L1 [1, 6, 12] ["B"] none none)

/-- Two-player game: the observer `A` holds card 0, and an update reports
`A` itself as the shower of card 6. -/
def c5L0 : Ledger := getLedger (init ["A", "B"] [1, 2] "A" [0])

def c5L1 : Ledger := getLedger (update c5L0 [5, 6, 12] [] (some "A") (some 6))

def c5wL1 : Ledger :=
  getLedger (update c5L0 [1, 6, 12] [] (some "B") (some 1))

/-- Three-player game: `C` opens a claim group on cards 1, 6, 12 which is
narrowed to card 1 by two passes; `B` then directly reveals card 1. -/
def c6L0 : Ledger := getLedger (init ["A", "B", "C"] [0, 3, 3] "A" [])

def c6L1 : Ledger := getLedger (update c6L0 [1, 6, 12] [] (some "C") none)

def c6L2 : Ledger := getLedger (update c6L1 [6, 7, 13] ["C"] none none)

def c6L3 : Ledger := getLedger (update c6L2 [12, 8, 14] ["C"] none none)

def c6L4 : Ledger := getLedger (update c6L3 [1, 7, 13] [] (some "B") (some 1))

/-- Two-player game before a claim group is opened for `B`. -/
def c7L : Ledger := getLedger (init ["A", "B"] [1, 2] "A" [0])

/-- A freshly constructed two-player ledger. -/
def c8L : Ledger := getLedger (init ["A", "B"] [1, 3] "A" [0])

/-- A freshly constructed two-player ledger for the initial-state claim. -/
def c10L : Ledger := getLedger (init ["A", "B"] [1, 3] "A" [0])

/-- The candidate list of a category as the specification words it: the
confirmed solution card alone if the category has one, otherwise every card
of the category that is still possible. -/
def specCandidates (n : ℕ) (s : Sheet) (cat : List Card) : List Card :=
  match cat.find? (fun c => is_solution n s c) with
  | some c => [c]
  | none => cat.filter (fun c => is_possible n s c)

/-! ## Basic predicates on sheets -/

/-- The sheet has 21 rows of `n` cells each. -/
def Shape (n : ℕ) (s : Sheet) : Prop :=
  s.length = 21 ∧ ∀ row ∈ s, row.length = n

/-- A well-formed cell: a sentinel, or a set of positive claim-group ids. -/
def WFcell (e : Finset ℤ) : Prop :=
  e = YES ∨ e = NO ∨ ∀ x ∈ e, 0 < x

/-- A well-formed sheet: correct shape and well-formed cells. -/
def WF (n : ℕ) (s : Sheet) : Prop :=
  Shape n s ∧ ∀ c : Card, ∀ p < n, WFcell (cell s c p)

instance (e : Finset ℤ) : Decidable (WFcell e) := instDecidableOr

instance (n : ℕ) (s : Sheet) : Decidable (Shape n s) := instDecidableAnd

instance (n : ℕ) (s : Sheet) : Decidable (WF n s) := instDecidableAnd

/-! ## Transition predicates for the rule engine -/

/-- Each non-sentinel cell of column `q` carries at most one claim id. -/
def Hcol (s : Sheet) (q : ℕ) : Prop :=
  ∀ c : Card, Unk (cell s c q) → (cell s c q).card ≤ 1

instance (s : Sheet) (q : ℕ) : Decidable (Hcol s q) :=
  Fintype.decidableForallFintype

/-- Lexicographic decrease of the termination measure. -/
def lexlt (n : ℕ) (s' s : Sheet) : Prop :=
  idOcc n s' < idOcc n s ∨
    (idOcc n s' = idOcc n s ∧ unknownCount n s' < unknownCount n s)

/-- The invariants carried by every rule-engine mutation: well-formedness,
no new claim ids, `NO` cells preserved, and (when no cell of a column has
two claim ids) `YES` cells of that column preserved. -/
def TrLax (n : ℕ) (s s' : Sheet) : Prop :=
  WF n s' ∧ idOcc n s' ≤ idOcc n s ∧
    (∀ (c : Card) (p : ℕ), cell s c p = NO → cell s' c p = NO) ∧
    (∀ (c : Card) (p : ℕ) (i : ℤ), Unk (cell s' c p) → i ∈ cell s' c p →
      Unk (cell s c p) ∧ i ∈ cell s c p) ∧
    (∀ q, Hcol s q → ∀ c : Card, cell s c q = YES → cell s' c q = YES)

/-- A lax transition that also strictly decreases the measure. -/
def TrStrict (n : ℕ) (s s' : Sheet) : Prop :=
  TrLax n s s' ∧ lexlt n s' s

/-- The contract of one rule application: either nothing happened and the
flag is clear, or the sheet strictly progressed and the flag is set. -/
def RuleOK (n : ℕ) (s : Sheet) (r : Sheet × Bool) : Prop :=
  r = (s, false) ∨ (TrStrict n s r.1 ∧ r.2 = true)


/-- Invariant carried through rule 6's per-player fold, relating the
working sheet `t` (and flag `b`) to the sheet `s` at snapshot time. -/
def R6Inv (n : ℕ) (s : Sheet) (p : ℕ) (t : Sheet) (b : Bool) : Prop :=
  WF n t ∧ idOcc n t ≤ idOcc n s ∧ (b = false → t = s) ∧
    (b = true → lexlt n t s) ∧
    (∀ (c : Card) (q : ℕ), cell s c q = NO → cell t c q = NO) ∧
    (∀ (c : Card) (q : ℕ) (i : ℤ), Unk (cell t c q) → i ∈ cell t c q →
      Unk (cell s c q) ∧ i ∈ cell s c q) ∧
    (∀ q, q ≠ p → ∀ c : Card, cell t c q = cell s c q) ∧
    (Hcol s p → ∀ c : Card, cell s c p = YES → cell t c p = YES)

/-- What rule 6 still knows about the unprocessed snapshot entries: a stale
singleton's card is either already remarked (after a strict id drop) or
still carries its claim id. -/
def R6Stale (n : ℕ) (s : Sheet) (p : ℕ) (t : Sheet)
    (l : List (ℤ × List Card)) : Prop :=
  ∀ gc ∈ l, ∀ x : Card, gc.2 = [x] →
    (cell t x p = YES → idOcc n t < idOcc n s) ∧
    (cell t x p ≠ YES → Unk (cell t x p) ∧
      (gc.1 ∈ cell t x p ∨ idOcc n t < idOcc n s)) ∧
    (Hcol s p → cell t x p ≠ YES)

theorem YES_ne_NO : YES ≠ NO := by decide

theorem WFcell_pos {e : Finset ℤ} (h : WFcell e) (hu : Unk e) :
    ∀ x ∈ e, 0 < x := by
  rcases h with h | h | h
  · exact absurd h hu.1
  · exact absurd h hu.2
  · exact h

theorem neg_one_mem_YES : (-1 : ℤ) ∈ YES := by decide

theorem neg_two_mem_NO : (-2 : ℤ) ∈ NO := by decide

/-- A set of positive integers differs from both sentinels. -/
theorem pos_unk {e : Finset ℤ} (h : ∀ x ∈ e, 0 < x) : Unk e := by
  constructor
  · intro he
    have := h (-1) (he ▸ neg_one_mem_YES)
    omega
  · intro he
    have := h (-2) (he ▸ neg_two_mem_NO)
    omega

theorem sdiff_pos {e d : Finset ℤ} (h : ∀ x ∈ e, 0 < x) :
    ∀ x ∈ e \ d, 0 < x := fun x hx => h x (Finset.mem_sdiff.mp hx).1

/-- Subtracting a set of positive ids from a sentinel leaves it unchanged. -/
theorem YES_sdiff {d : Finset ℤ} (hd : ∀ x ∈ d, 0 < x) : YES \ d = YES := by
  apply Finset.sdiff_eq_self_of_disjoint
  rw [Finset.disjoint_left]
  intro a ha had
  have h1 : a = -1 := by simpa [YES] using ha
  have := hd a had
  omega

theorem NO_sdiff {d : Finset ℤ} (hd : ∀ x ∈ d, 0 < x) : NO \ d = NO := by
  apply Finset.sdiff_eq_self_of_disjoint
  rw [Finset.disjoint_left]
  intro a ha had
  have h1 : a = -2 := by simpa [NO] using ha
  have := hd a had
  omega

/-! ## Pointwise characterisation of the cell operations -/

theorem getD_set {α : Type} (l : List α) (i j : ℕ) (a d : α) :
    (l.set i a).getD j d = if i = j ∧ i < l.length then a else l.getD j d := by
  rw [List.getD_eq_getElem?_getD, List.getD_eq_getElem?_getD,
    List.getElem?_set]
  by_cases h : i = j
  · subst h
    by_cases h2 : i < l.length
    · simp [h2]
    · simp [h2, List.getElem?_eq_none (by omega : l.length ≤ i)]
  · simp [h]

theorem getD_mem {α : Type} (l : List α) (d : α) {i : ℕ} (h : i < l.length) :
    l.getD i d ∈ l := by
  rw [List.getD_eq_getElem?_getD, List.getElem?_eq_getElem h]
  exact List.getElem_mem h

theorem rowLen {n : ℕ} {s : Sheet} (h : Shape n s) (c : Card) :
    (s.getD c.val []).length = n :=
  h.2 _ (getD_mem s [] (by rw [h.1]; exact c.isLt))

theorem shape_setCell {n : ℕ} {s : Sheet} (h : Shape n s) (c : Card) (p : ℕ)
    (v : Finset ℤ) : Shape n (setCell s c p v) := by
  obtain ⟨hl, hr⟩ := h
  refine ⟨by simpa [setCell] using hl, ?_⟩
  intro row hrow
  rcases List.mem_or_eq_of_mem_set hrow with hmem | heq
  · exact hr row hmem
  · subst heq
    rw [List.length_set]
    exact rowLen ⟨hl, hr⟩ c

theorem cell_setCell {n : ℕ} {s : Sheet} (h : Shape n s) {p : ℕ} (hp : p < n)
    (c : Card) (v : Finset ℤ) (c' : Card) (p' : ℕ) :
    cell (setCell s c p v) c' p' =
      if c' = c ∧ p' = p then v else cell s c' p' := by
  have hrowlen : (s.getD c.val []).length = n := rowLen h c
  unfold cell setCell
  rw [getD_set]
  by_cases hc : c' = c
  · subst hc
    rw [if_pos ⟨rfl, by rw [h.1]; exact c'.isLt⟩, getD_set]
    by_cases hpp : p' = p
    · subst hpp
      rw [if_pos ⟨rfl, by omega⟩, if_pos ⟨rfl, rfl⟩]
    · rw [if_neg (fun hand => hpp hand.1.symm),
        if_neg (fun hand => hpp hand.2)]
  · have hv : ¬(c.val = c'.val ∧ c.val < s.length) :=
      fun hand => hc (Fin.ext hand.1.symm)
    rw [if_neg hv, if_neg (fun hand => hc hand.1)]

theorem subCol_getElem? (d : Finset ℤ) (p : ℕ) (s : Sheet) (i : ℕ) :
    (subCol d p s)[i]? =
      Option.map (fun row => row.set p (row.getD p ∅ \ d)) s[i]? := by
  induction s generalizing i with
  | nil => simp [subCol]
  | cons row rest ih =>
    cases i with
    | zero => rw [subCol]; simp
    | succ j => rw [subCol]; simpa using ih j

theorem length_subCol (d : Finset ℤ) (p : ℕ) (s : Sheet) :
    (subCol d p s).length = s.length := by
  induction s with
  | nil => rfl
  | cons row rest ih => rw [subCol]; simpa using ih

theorem shape_subCol {n : ℕ} {s : Sheet} (h : Shape n s) (d : Finset ℤ)
    (p : ℕ) : Shape n (subCol d p s) := by
  obtain ⟨hl, hr⟩ := h
  refine ⟨by rw [length_subCol]; exact hl, ?_⟩
  intro row hrow
  obtain ⟨i, hi, hget⟩ := List.getElem_of_mem hrow
  have h2 : (subCol d p s)[i]? = some row := by
    rw [List.getElem?_eq_getElem hi, hget]
  rw [subCol_getElem? d p s i] at h2
  have hi' : i < s.length := by
    have := hi
    rw [length_subCol] at this
    exact this
  rw [List.getElem?_eq_getElem hi', Option.map_some'] at h2
  have hmem : s[i] ∈ s := List.getElem_mem hi'
  have := hr s[i] hmem
  rw [← Option.some_inj.mp h2, List.length_set]
  exact this

theorem getD_subCol (d : Finset ℤ) (p : ℕ) (s : Sheet) (i : ℕ)
    (hi : i < s.length) :
    (subCol d p s).getD i [] =
      (s.getD i []).set p ((s.getD i []).getD p ∅ \ d) := by
  have hgd : List.getD s i [] = s[i] := by
    rw [List.getD_eq_getElem?_getD, List.getElem?_eq_getElem hi]
    rfl
  rw [List.getD_eq_getElem?_getD, subCol_getElem?,
    List.getElem?_eq_getElem hi, Option.map_some', Option.getD_some, hgd]

theorem cell_subCol {n : ℕ} {s : Sheet} (h : Shape n s) (d : Finset ℤ)
    {p : ℕ} (hp : p < n) (c : Card) (p' : ℕ) :
    cell (subCol d p s) c p' =
      if p' = p then cell s c p' \ d else cell s c p' := by
  have hrowlen : (s.getD c.val []).length = n := rowLen h c
  unfold cell
  rw [getD_subCol d p s c.val (by rw [h.1]; exact c.isLt), getD_set]
  by_cases hpp : p' = p
  · subst hpp
    rw [if_pos ⟨rfl, by omega⟩, if_pos rfl]
  · rw [if_neg (fun hand => hpp hand.1.symm), if_neg hpp]

theorem shape_mark_no {n : ℕ} {s : Sheet} (h : Shape n s) (c : Card) (p : ℕ) :
    Shape n (mark_no s c p) := shape_setCell h c p NO

theorem cell_mark_no {n : ℕ} {s : Sheet} (h : Shape n s) {p : ℕ} (hp : p < n)
    (c : Card) (c' : Card) (p' : ℕ) :
    cell (mark_no s c p) c' p' =
      if c' = c ∧ p' = p then NO else cell s c' p' :=
  cell_setCell h hp c NO c' p'

theorem shape_mark_yes {n : ℕ} {s : Sheet} (h : Shape n s) (c : Card)
    (p : ℕ) : Shape n (mark_yes s c p) :=
  shape_setCell (shape_subCol h _ p) c p YES

theorem cell_mark_yes {n : ℕ} {s : Sheet} (h : Shape n s) {p : ℕ} (hp : p < n)
    (c : Card) (c' : Card) (p' : ℕ) :
    cell (mark_yes s c p) c' p' =
      if p' = p then (if c' = c then YES else cell s c' p' \ cell s c p)
      else cell s c' p' := by
  unfold mark_yes
  rw [cell_setCell (shape_subCol h _ p) hp, cell_subCol h _ hp]
  by_cases hpp : p' = p
  · subst hpp
    by_cases hc : c' = c <;> simp [hc]
  · simp [hpp]

theorem hcol_of_ids {s s' : Sheet} {q : ℕ}
    (hids : ∀ (c : Card) (p : ℕ) (i : ℤ), Unk (cell s' c p) →
      i ∈ cell s' c p → Unk (cell s c p) ∧ i ∈ cell s c p)
    (h : Hcol s q) : Hcol s' q := by
  intro c hu
  by_cases hsub : cell s' c q ⊆ cell s c q
  · by_cases hu0 : Unk (cell s c q)
    · exact le_trans (Finset.card_le_card hsub) (h c hu0)
    · have : cell s' c q = ∅ := by
        by_contra hne
        obtain ⟨i, hi⟩ := Finset.nonempty_iff_ne_empty.mpr hne
        exact hu0 (hids c q i hu hi).1
      simp [this]
  · have : cell s' c q = ∅ := by
      by_contra hne
      exfalso
      apply hsub
      intro i hi
      exact (hids c q i hu hi).2
    simp [this]

theorem trLax_refl (n : ℕ) {s : Sheet} (h : WF n s) : TrLax n s s :=
  ⟨h, le_refl _, fun _ _ h => h, fun _ _ _ hu hi => ⟨hu, hi⟩,
    fun _ _ _ h => h⟩

theorem trLax_trans {n : ℕ} {s s₁ s₂ : Sheet} (h1 : TrLax n s s₁)
    (h2 : TrLax n s₁ s₂) : TrLax n s s₂ := by
  obtain ⟨w1, o1, n1, i1, y1⟩ := h1
  obtain ⟨w2, o2, n2, i2, y2⟩ := h2
  refine ⟨w2, le_trans o2 o1, fun c p h => n2 c p (n1 c p h), ?_, ?_⟩
  · intro c p i hu hi
    obtain ⟨hu1, hi1⟩ := i2 c p i hu hi
    exact i1 c p i hu1 hi1
  · intro q hq c hy
    exact y2 q (hcol_of_ids i1 hq) c (y1 q hq c hy)

theorem lexlt_trans {n : ℕ} {s s₁ s₂ : Sheet} (h1 : lexlt n s₁ s)
    (h2 : lexlt n s₂ s₁) : lexlt n s₂ s := by
  unfold lexlt at h1 h2 ⊢
  omega

theorem trStrict_trans {n : ℕ} {s s₁ s₂ : Sheet} (h1 : TrStrict n s s₁)
    (h2 : TrStrict n s₁ s₂) : TrStrict n s s₂ :=
  ⟨trLax_trans h1.1 h2.1, lexlt_trans h1.2 h2.2⟩

theorem trStrict_lax_strict {n : ℕ} {s s₁ s₂ : Sheet} (h1 : TrLax n s s₁)
    (hl : lexlt n s₁ s) (h2 : TrLax n s₁ s₂) (hl2 : lexlt n s₂ s₁) :
    TrStrict n s s₂ := trStrict_trans ⟨h1, hl⟩ ⟨h2, hl2⟩

/-! ## Sum helpers for the measure -/

theorem colUnknown_congr {s s' : Sheet} {p : ℕ}
    (h : ∀ c : Card, cell s' c p = cell s c p) :
    colUnknown s' p = colUnknown s p :=
  Finset.sum_congr rfl fun c _ => by rw [h c]

theorem colOcc_congr {s s' : Sheet} {p : ℕ}
    (h : ∀ c : Card, cell s' c p = cell s c p) :
    colOcc s' p = colOcc s p :=
  Finset.sum_congr rfl fun c _ => by rw [h c]

theorem unknownCount_lt_of_col {n : ℕ} {s s' : Sheet} {p : ℕ} (hp : p < n)
    (hothers : ∀ p', p' ≠ p → ∀ c : Card, cell s' c p' = cell s c p')
    (hcol : colUnknown s' p < colUnknown s p) :
    unknownCount n s' < unknownCount n s := by
  apply Finset.sum_lt_sum
  · intro q _
    by_cases hq : q = p
    · subst hq; exact le_of_lt hcol
    · exact le_of_eq (colUnknown_congr (hothers q hq))
  · exact ⟨p, Finset.mem_range.mpr hp, hcol⟩

theorem unknownCount_le_of_col {n : ℕ} {s s' : Sheet} {p : ℕ}
    (hothers : ∀ p', p' ≠ p → ∀ c : Card, cell s' c p' = cell s c p')
    (hcol : colUnknown s' p ≤ colUnknown s p) :
    unknownCount n s' ≤ unknownCount n s := by
  apply Finset.sum_le_sum
  intro q _
  by_cases hq : q = p
  · subst hq; exact hcol
  · exact le_of_eq (colUnknown_congr (hothers q hq))

theorem idOcc_le_of_col {n : ℕ} {s s' : Sheet} {p : ℕ}
    (hothers : ∀ p', p' ≠ p → ∀ c : Card, cell s' c p' = cell s c p')
    (hcol : colOcc s' p ≤ colOcc s p) : idOcc n s' ≤ idOcc n s := by
  apply Finset.sum_le_sum
  intro q _
  by_cases hq : q = p
  · subst hq; exact hcol
  · exact le_of_eq (colOcc_congr (hothers q hq))

theorem idOcc_eq_of_col {n : ℕ} {s s' : Sheet} {p : ℕ}
    (hothers : ∀ p', p' ≠ p → ∀ c : Card, cell s' c p' = cell s c p')
    (hcol : colOcc s' p = colOcc s p) : idOcc n s' = idOcc n s := by
  apply Finset.sum_congr rfl
  intro q _
  by_cases hq : q = p
  · subst hq; exact hcol
  · exact colOcc_congr (hothers q hq)

theorem unknownCount_le_total (n : ℕ) (s : Sheet) :
    unknownCount n s ≤ 21 * n := by
  have h1 : ∀ p ∈ Finset.range n, colUnknown s p ≤ 21 := by
    intro p _
    unfold colUnknown
    calc Finset.sum Finset.univ
          (fun c : Card =>
            if Unk (cell s c p) then 1 else 0) ≤
        Finset.sum (Finset.univ : Finset Card) (fun _ => 1) := by
          apply Finset.sum_le_sum
          intro c _
          split <;> omega
      _ = 21 := by simp
  calc unknownCount n s ≤ Finset.sum (Finset.range n) (fun _ => 21) :=
        Finset.sum_le_sum h1
    _ = 21 * n := by simp [Nat.mul_comm]

theorem lexlt_measure {n : ℕ} {s s' : Sheet} (h : lexlt n s' s) :
    measureOf n s' < measureOf n s := by
  have hb := unknownCount_le_total n s'
  unfold measureOf
  rcases h with h | ⟨he, hu⟩
  · have : (21 * n + 1) * idOcc n s' + 21 * n <
        (21 * n + 1) * idOcc n s := by
      have : idOcc n s' + 1 ≤ idOcc n s := h
      calc (21 * n + 1) * idOcc n s' + 21 * n <
          (21 * n + 1) * idOcc n s' + (21 * n + 1) := by omega
        _ = (21 * n + 1) * (idOcc n s' + 1) := by ring
        _ ≤ (21 * n + 1) * idOcc n s := by
            exact Nat.mul_le_mul_left _ this
    omega
  · rw [he]
    omega

theorem idOcc_lt_of_col {n : ℕ} {s s' : Sheet} {p : ℕ} (hp : p < n)
    (hothers : ∀ p', p' ≠ p → ∀ c : Card, cell s' c p' = cell s c p')
    (hcol : colOcc s' p < colOcc s p) : idOcc n s' < idOcc n s := by
  apply Finset.sum_lt_sum
  · intro q _
    by_cases hq : q = p
    · subst hq; exact le_of_lt hcol
    · exact le_of_eq (colOcc_congr (hothers q hq))
  · exact ⟨p, Finset.mem_range.mpr hp, hcol⟩

theorem lexlt_of_le_lt {n : ℕ} {s s' : Sheet} (ho : idOcc n s' ≤ idOcc n s)
    (hu : unknownCount n s' < unknownCount n s) : lexlt n s' s := by
  unfold lexlt
  omega

theorem unk_NO_false : ¬Unk NO := fun h => h.2 rfl

theorem unk_YES_false : ¬Unk YES := fun h => h.1 rfl

theorem unk_empty : Unk (∅ : Finset ℤ) := by
  constructor <;> decide

/-! ## The marking primitives are good transitions -/

theorem mark_no_strict {n : ℕ} {s : Sheet} (hw : WF n s) {c : Card} {p : ℕ}
    (hp : p < n) (hu : Unk (cell s c p)) : TrStrict n s (mark_no s c p) := by
  have hchar := cell_mark_no hw.1 hp c
  have hothers : ∀ p', p' ≠ p → ∀ c' : Card,
      cell (mark_no s c p) c' p' = cell s c' p' := by
    intro p' hne c'
    rw [hchar c' p', if_neg (fun hand => hne hand.2)]
  have hwf' : WF n (mark_no s c p) := by
    refine ⟨shape_mark_no hw.1 c p, ?_⟩
    intro c0 p0 hp0
    rw [hchar c0 p0]
    split
    · exact Or.inr (Or.inl rfl)
    · exact hw.2 c0 p0 hp0
  have hinner : ∀ c0 : Card, cell (mark_no s c p) c0 p =
      if c0 = c then NO else cell s c0 p := by
    intro c0
    rw [hchar c0 p]
    by_cases hc : c0 = c
    · rw [if_pos ⟨hc, rfl⟩, if_pos hc]
    · rw [if_neg (fun hand => hc hand.1), if_neg hc]
  have hocc : colOcc (mark_no s c p) p ≤ colOcc s p := by
    apply Finset.sum_le_sum
    intro c0 _
    by_cases hc : c0 = c
    · rw [hinner c0, if_pos hc, if_neg (fun h => h.2 rfl)]
      exact Nat.zero_le _
    · rw [hinner c0, if_neg hc]
  have hunk : colUnknown (mark_no s c p) p < colUnknown s p := by
    apply Finset.sum_lt_sum
    · intro c0 _
      by_cases hc : c0 = c
      · rw [hinner c0, if_pos hc, if_neg (fun h => h.2 rfl)]
        exact Nat.zero_le _
      · rw [hinner c0, if_neg hc]
    · refine ⟨c, Finset.mem_univ c, ?_⟩
      rw [hinner c, if_pos rfl, if_neg (fun h => h.2 rfl), if_pos hu]
      omega
  refine ⟨⟨hwf', idOcc_le_of_col hothers hocc, ?_, ?_, ?_⟩,
    lexlt_of_le_lt (idOcc_le_of_col hothers hocc)
      (unknownCount_lt_of_col hp hothers hunk)⟩
  · intro c0 p0 h0
    rw [hchar c0 p0]
    split
    · rfl
    · exact h0
  · intro c0 p0 i hu' hi
    rw [hchar c0 p0] at hu' hi
    by_cases hcond : c0 = c ∧ p0 = p
    · rw [if_pos hcond] at hu'
      exact absurd hu' unk_NO_false
    · rw [if_neg hcond] at hu' hi
      exact ⟨hu', hi⟩
  · intro q _ c0 hy
    rw [hchar c0 q]
    split
    · rename_i hand
      rw [hand.1, hand.2] at hy
      exact absurd hy.symm (fun h => hu.1 h.symm)
    · exact hy

theorem cell_mark_yes_wf {n : ℕ} {s : Sheet} (hw : WF n s) {c : Card}
    {p : ℕ} (hp : p < n) (hpos : ∀ x ∈ cell s c p, 0 < x) (c' : Card)
    (p' : ℕ) (hp' : p' < n) :
    cell (mark_yes s c p) c' p' =
      if p' = p then
        (if c' = c then YES
         else if cell s c' p' = YES then YES
         else if cell s c' p' = NO then NO
         else cell s c' p' \ cell s c p)
      else cell s c' p' := by
  rw [cell_mark_yes hw.1 hp c c' p']
  by_cases hpp : p' = p
  · subst hpp
    by_cases hc : c' = c
    · simp [hc]
    · rw [if_pos rfl, if_pos rfl, if_neg hc, if_neg hc]
      by_cases hy : cell s c' p' = YES
      · rw [if_pos hy, hy, YES_sdiff hpos]
      · rw [if_neg hy]
        by_cases hn : cell s c' p' = NO
        · rw [if_pos hn, hn, NO_sdiff hpos]
        · rw [if_neg hn]
  · rw [if_neg hpp, if_neg hpp]

theorem mark_yes_strict {n : ℕ} {s : Sheet} (hw : WF n s) {c : Card} {p : ℕ}
    (hp : p < n) (hu : Unk (cell s c p)) :
    TrStrict n s (mark_yes s c p) := by
  have hpos : ∀ x ∈ cell s c p, 0 < x := WFcell_pos (hw.2 c p hp) hu
  have hchar := cell_mark_yes_wf hw hp hpos
  have hchar0 := cell_mark_yes hw.1 hp c
  have hothers : ∀ p', p' ≠ p → ∀ c' : Card,
      cell (mark_yes s c p) c' p' = cell s c' p' := by
    intro p' hne c'
    rw [hchar0 c' p', if_neg hne]
  have hwf' : WF n (mark_yes s c p) := by
    refine ⟨shape_mark_yes hw.1 c p, ?_⟩
    intro c0 p0 hp0
    rw [hchar c0 p0 hp0]
    split
    · split
      · exact Or.inl rfl
      · split
        · exact Or.inl rfl
        · split
          · exact Or.inr (Or.inl rfl)
          · rcases hw.2 c0 p0 hp0 with h | h | h
            · rename_i hny _
              exact absurd h hny
            · rename_i hnn
              exact absurd h hnn
            · exact Or.inr (Or.inr (sdiff_pos h))
    · exact hw.2 c0 p0 hp0
  have hinner : ∀ c0 : Card, cell (mark_yes s c p) c0 p =
      if c0 = c then YES
      else if cell s c0 p = YES then YES
      else if cell s c0 p = NO then NO
      else cell s c0 p \ cell s c p := by
    intro c0
    rw [hchar c0 p hp]
    exact if_pos rfl
  have hocc : colOcc (mark_yes s c p) p ≤ colOcc s p := by
    apply Finset.sum_le_sum
    intro c0 _
    by_cases hc : c0 = c
    · rw [hinner c0, if_pos hc, if_neg (fun h => h.1 rfl)]
      exact Nat.zero_le _
    · rw [hinner c0, if_neg hc]
      by_cases hy : cell s c0 p = YES
      · rw [if_pos hy, hy]
      · rw [if_neg hy]
        by_cases hn : cell s c0 p = NO
        · rw [if_pos hn, hn]
        · rw [if_neg hn]
          have hu0 : Unk (cell s c0 p) := ⟨hy, hn⟩
          have hus : Unk (cell s c0 p \ cell s c p) :=
            pos_unk (sdiff_pos (WFcell_pos (hw.2 c0 p hp) hu0))
          rw [if_pos hus, if_pos hu0]
          exact Finset.card_le_card Finset.sdiff_subset
  have hunk : colUnknown (mark_yes s c p) p < colUnknown s p := by
    apply Finset.sum_lt_sum
    · intro c0 _
      by_cases hc : c0 = c
      · rw [hinner c0, if_pos hc, if_neg (fun h => h.1 rfl)]
        exact Nat.zero_le _
      · rw [hinner c0, if_neg hc]
        by_cases hy : cell s c0 p = YES
        · rw [if_pos hy, hy]
        · rw [if_neg hy]
          by_cases hn : cell s c0 p = NO
          · rw [if_pos hn, hn]
          · rw [if_neg hn]
            have hu0 : Unk (cell s c0 p) := ⟨hy, hn⟩
            have hus : Unk (cell s c0 p \ cell s c p) :=
              pos_unk (sdiff_pos (WFcell_pos (hw.2 c0 p hp) hu0))
            rw [if_pos hus, if_pos hu0]
    · refine ⟨c, Finset.mem_univ c, ?_⟩
      rw [hinner c, if_pos rfl, if_neg (fun h => h.1 rfl), if_pos hu]
      omega
  refine ⟨⟨hwf', idOcc_le_of_col hothers hocc, ?_, ?_, ?_⟩,
    lexlt_of_le_lt (idOcc_le_of_col hothers hocc)
      (unknownCount_lt_of_col hp hothers hunk)⟩
  · intro c0 p0 h0
    by_cases hp0 : p0 < n
    · rw [hchar c0 p0 hp0]
      by_cases hpp : p0 = p
      · rw [if_pos hpp]
        by_cases hc : c0 = c
        · rw [hpp, hc] at h0
          exact absurd h0 hu.2
        · rw [if_neg hc, h0, if_neg YES_ne_NO.symm, if_pos rfl]
      · rw [if_neg hpp]
        exact h0
    · rw [hothers p0 (fun h => hp0 (h ▸ hp)) c0]
      exact h0
  · intro c0 p0 i hu' hi
    by_cases hp0 : p0 < n
    · by_cases hpp : p0 = p
      · subst hpp
        rw [hchar c0 p0 hp0, if_pos rfl] at hu' hi
        by_cases hc : c0 = c
        · rw [if_pos hc] at hu'
          exact absurd hu' unk_YES_false
        · rw [if_neg hc] at hu' hi
          by_cases hy : cell s c0 p0 = YES
          · rw [if_pos hy] at hu'
            exact absurd hu' unk_YES_false
          · rw [if_neg hy] at hu' hi
            by_cases hn : cell s c0 p0 = NO
            · rw [if_pos hn] at hu'
              exact absurd hu' unk_NO_false
            · rw [if_neg hn] at hu' hi
              exact ⟨⟨hy, hn⟩, (Finset.mem_sdiff.mp hi).1⟩
      · rw [hchar c0 p0 hp0, if_neg hpp] at hu' hi
        exact ⟨hu', hi⟩
    · rw [hothers p0 (fun h => hp0 (h ▸ hp)) c0] at hu' hi
      exact ⟨hu', hi⟩
  · intro q _ c0 hy
    by_cases hq : q < n
    · rw [hchar c0 q hq]
      by_cases hpp : q = p
      · rw [if_pos hpp]
        by_cases hc : c0 = c
        · rw [hpp, hc] at hy
          exact absurd hy hu.1
        · rw [if_neg hc, if_pos hy]
      · rw [if_neg hpp]
        exact hy
    · rw [hothers q (fun h => hq (h ▸ hp)) c0]
      exact hy

theorem NO_sdiff_YES : NO \ YES = NO := by decide

/-- Re-marking an already-`YES` cell: the sentinel subtraction erases every
other `YES` cell of the column but leaves the measure unchanged. -/
theorem mark_yes_on_yes {n : ℕ} {s : Sheet} (hw : WF n s) {c : Card} {p : ℕ}
    (hp : p < n) (hy : cell s c p = YES) :
    WF n (mark_yes s c p) ∧
      idOcc n (mark_yes s c p) = idOcc n s ∧
      (∀ (c0 : Card) (p0 : ℕ), cell s c0 p0 = NO →
        cell (mark_yes s c p) c0 p0 = NO) ∧
      (∀ (c0 : Card) (p0 : ℕ) (i : ℤ), Unk (cell (mark_yes s c p) c0 p0) →
        i ∈ cell (mark_yes s c p) c0 p0 →
        Unk (cell s c0 p0) ∧ i ∈ cell s c0 p0) ∧
      (∀ q, q ≠ p → ∀ c0 : Card, cell s c0 q = YES →
        cell (mark_yes s c p) c0 q = YES) ∧
      cell (mark_yes s c p) c p = YES := by
  have hchar0 := cell_mark_yes hw.1 hp c
  have hothers : ∀ p', p' ≠ p → ∀ c' : Card,
      cell (mark_yes s c p) c' p' = cell s c' p' := by
    intro p' hne c'
    rw [hchar0 c' p', if_neg hne]
  have hinner : ∀ c0 : Card, ∀ p0, p0 < n → cell (mark_yes s c p) c0 p0 =
      if p0 = p then
        (if c0 = c then YES
         else if cell s c0 p0 = YES then (∅ : Finset ℤ) else cell s c0 p0)
      else cell s c0 p0 := by
    intro c0 p0 hp0
    rw [hchar0 c0 p0]
    by_cases hpp : p0 = p
    · subst hpp
      rw [if_pos rfl, if_pos rfl]
      by_cases hc : c0 = c
      · rw [if_pos hc, if_pos hc]
      · rw [if_neg hc, if_neg hc, hy]
        by_cases hy0 : cell s c0 p0 = YES
        · rw [if_pos hy0, hy0, Finset.sdiff_self]
        · rw [if_neg hy0]
          rcases hw.2 c0 p0 hp0 with h | h | h
          · exact absurd h hy0
          · rw [h, NO_sdiff_YES]
          · rw [Finset.sdiff_eq_self_of_disjoint]
            rw [Finset.disjoint_left]
            intro a ha hay
            have h1 : a = -1 := by simpa [YES] using hay
            have := h a ha
            omega
    · rw [if_neg hpp, if_neg hpp]
  refine ⟨?_, ?_, ?_, ?_, ?_, ?_⟩
  · refine ⟨shape_mark_yes hw.1 c p, ?_⟩
    intro c0 p0 hp0
    rw [hinner c0 p0 hp0]
    split
    · split
      · exact Or.inl rfl
      · split
        · exact Or.inr (Or.inr (by simp))
        · exact hw.2 c0 p0 hp0
    · exact hw.2 c0 p0 hp0
  · apply idOcc_eq_of_col hothers
    apply Finset.sum_congr rfl
    intro c0 _
    by_cases hc : c0 = c
    · rw [hinner c0 p hp, if_pos rfl, if_pos hc]
      subst hc
      rw [hy]
    · rw [hinner c0 p hp, if_pos rfl, if_neg hc]
      by_cases hy0 : cell s c0 p = YES
      · rw [if_pos hy0, hy0, if_pos unk_empty,
          if_neg (fun h => unk_YES_false h)]
        simp
      · rw [if_neg hy0]
  · intro c0 p0 h0
    by_cases hp0 : p0 < n
    · rw [hinner c0 p0 hp0]
      split
      · split
        · rename_i hpp hc
          rw [hc, hpp] at h0
          rw [h0] at hy
          exact absurd hy.symm YES_ne_NO
        · rw [h0, if_neg YES_ne_NO.symm]
      · exact h0
    · rw [hothers p0 (fun h => hp0 (h ▸ hp)) c0]
      exact h0
  · intro c0 p0 i hu' hi
    by_cases hp0 : p0 < n
    · rw [hinner c0 p0 hp0] at hu' hi
      by_cases hpp : p0 = p
      · rw [if_pos hpp] at hu' hi
        by_cases hc : c0 = c
        · rw [if_pos hc] at hu'
          exact absurd hu' unk_YES_false
        · rw [if_neg hc] at hu' hi
          by_cases hy0 : cell s c0 p0 = YES
          · rw [if_pos hy0] at hi
            exact absurd hi (Finset.not_mem_empty i)
          · rw [if_neg hy0] at hu' hi
            exact ⟨hu', hi⟩
      · rw [if_neg hpp] at hu' hi
        exact ⟨hu', hi⟩
    · rw [hothers p0 (fun h => hp0 (h ▸ hp)) c0] at hu' hi
      exact ⟨hu', hi⟩
  · intro q hq c0 hy0
    rw [hothers q hq c0]
    exact hy0
  · rw [hinner c p hp, if_pos rfl, if_pos rfl]

/-- `Ledger._mark` with a sentinel value on an unknown cell. -/
theorem trStrict_mark {n : ℕ} {s : Sheet} (hw : WF n s) {c : Card} {p : ℕ}
    {v : Finset ℤ} (hp : p < n) (hu : Unk (cell s c p))
    (hv : v = YES ∨ v = NO) : TrStrict n s (mark s c p v) := by
  rcases hv with rfl | rfl
  · rw [mark, if_neg YES_ne_NO, if_pos rfl]
    exact mark_yes_strict hw hp hu
  · rw [mark, if_pos rfl]
    exact mark_no_strict hw hp hu

/-- Folding rule steps that each either do nothing or strictly progress
yields a rule satisfying its contract. -/
theorem foldl_ruleOK {α : Type} {n : ℕ} (f : Sheet × Bool → α → Sheet × Bool) :
    ∀ l : List α,
      (∀ y a, a ∈ l → WF n y.1 →
        f y a = y ∨ (TrStrict n y.1 (f y a).1 ∧ (f y a).2 = true)) →
      ∀ x : Sheet × Bool, WF n x.1 →
        l.foldl f x = x ∨
          (TrStrict n x.1 (l.foldl f x).1 ∧ (l.foldl f x).2 = true) := by
  intro l
  induction l with
  | nil =>
    intro _ x _
    exact Or.inl rfl
  | cons a rest ih =>
    intro hf x hw
    rw [List.foldl_cons]
    have hfr : ∀ y a', a' ∈ rest → WF n y.1 →
        f y a' = y ∨ (TrStrict n y.1 (f y a').1 ∧ (f y a').2 = true) :=
      fun y a' ha' => hf y a' (List.mem_cons_of_mem a ha')
    rcases hf x a (List.mem_cons_self a rest) hw with heq | ⟨hstr, hflag⟩
    · rw [heq]
      exact ih hfr x hw
    · rcases ih hfr (f x a) hstr.1.1 with heq2 | ⟨hstr2, hflag2⟩
      · rw [heq2]
        exact Or.inr ⟨hstr, hflag⟩
      · exact Or.inr ⟨trStrict_trans hstr hstr2, hflag2⟩

theorem fill_row_ok {n : ℕ} {s : Sheet} (hw : WF n s) (row : Card)
    {v : Finset ℤ} (hv : v = YES ∨ v = NO) :
    RuleOK n s (fill_row n s row v) := by
  unfold fill_row
  apply foldl_ruleOK _ (List.range n) _ (s, false) hw
  intro y a ha hwy
  dsimp only
  by_cases hcond : cell y.1 row a ≠ YES ∧ cell y.1 row a ≠ NO
  · rw [if_pos hcond]
    exact Or.inr ⟨trStrict_mark hwy (List.mem_range.mp ha) hcond hv, rfl⟩
  · rw [if_neg hcond]
    exact Or.inl rfl

theorem fill_column_ok {n : ℕ} {s : Sheet} (hw : WF n s) {col : ℕ}
    (hcol : col < n) {v : Finset ℤ} (hv : v = YES ∨ v = NO) :
    RuleOK n s (fill_column s col v) := by
  unfold fill_column
  apply foldl_ruleOK _ cardList _ (s, false) hw
  intro y a _ hwy
  dsimp only
  by_cases hcond : cell y.1 a col ≠ YES ∧ cell y.1 a col ≠ NO
  · rw [if_pos hcond]
    exact Or.inr ⟨trStrict_mark hwy hcol hcond hv, rfl⟩
  · rw [if_neg hcond]
    exact Or.inl rfl

/-- Sequential composition of two rule applications, combining flags. -/
theorem ruleOK_comp {n : ℕ} {s : Sheet} {a b : Sheet × Bool}
    (h1 : RuleOK n s a) (h2 : RuleOK n a.1 b) :
    RuleOK n s (b.1, a.2 || b.2) := by
  rcases h1 with rfl | ⟨hstr1, hflag1⟩
  · rcases h2 with rfl | ⟨hstr2, hflag2⟩
    · exact Or.inl rfl
    · rw [hflag2]
      exact Or.inr ⟨hstr2, by simp⟩
  · rcases h2 with rfl | ⟨hstr2, hflag2⟩
    · rw [hflag1]
      exact Or.inr ⟨hstr1, by simp⟩
    · rw [hflag1, hflag2]
      exact Or.inr ⟨trStrict_trans hstr1 hstr2, by simp⟩

theorem ruleOK_wf {n : ℕ} {s : Sheet} {r : Sheet × Bool} (hw : WF n s)
    (h : RuleOK n s r) : WF n r.1 := by
  rcases h with rfl | ⟨hstr, _⟩
  · exact hw
  · exact hstr.1.1

/-! ## The seven simplification rules satisfy the rule contract -/

theorem simplify_known_holders_ok {n : ℕ} {s : Sheet} (hw : WF n s) :
    RuleOK n s (simplify_known_holders n s) := by
  unfold simplify_known_holders
  apply foldl_ruleOK _ cardList _ (s, false) hw
  intro y a _ hwy
  dsimp only
  by_cases hcond :
      (List.range n).any (fun p => decide (cell y.1 a p = YES)) = true
  · rw [if_pos hcond]
    rcases fill_row_ok hwy a (Or.inr rfl) with heq | ⟨hstr, hflag⟩
    · rw [heq]
      exact Or.inl (by simp)
    · exact Or.inr ⟨hstr, by simp [hflag]⟩
  · rw [if_neg hcond]
    exact Or.inl rfl

theorem simplify_max_no_counts_ok {n : ℕ} {hs : List ℕ} {s : Sheet}
    (hw : WF n s) : RuleOK n s (simplify_max_no_counts n hs s) := by
  unfold simplify_max_no_counts
  apply foldl_ruleOK _ (List.range n) _ (s, false) hw
  intro y a ha hwy
  dsimp only
  split
  · rcases fill_column_ok hwy (List.mem_range.mp ha) (Or.inl rfl) with
      heq | ⟨hstr, hflag⟩
    · rw [heq]
      exact Or.inl (by simp)
    · dsimp only
      exact Or.inr ⟨hstr, by rw [hflag, Bool.true_or]⟩
  · exact Or.inl rfl

theorem simplify_max_yes_counts_ok {n : ℕ} {hs : List ℕ} {s : Sheet}
    (hw : WF n s) : RuleOK n s (simplify_max_yes_counts n hs s) := by
  unfold simplify_max_yes_counts
  apply foldl_ruleOK _ (List.range n) _ (s, false) hw
  intro y a ha hwy
  dsimp only
  split
  · rcases fill_column_ok hwy (List.mem_range.mp ha) (Or.inr rfl) with
      heq | ⟨hstr, hflag⟩
    · rw [heq]
      exact Or.inl (by simp)
    · dsimp only
      exact Or.inr ⟨hstr, by rw [hflag, Bool.true_or]⟩
  · exact Or.inl rfl

theorem findOwnerAux_some {n : ℕ} {s : Sheet} {c : Card} :
    ∀ (l : List ℕ) (acc : Option ℕ) (p : ℕ),
      (∀ q ∈ l, q < n) →
      (∀ p₀, acc = some p₀ → p₀ < n ∧ Unk (cell s c p₀)) →
      findOwnerAux s c l acc = some p → p < n ∧ Unk (cell s c p) := by
  intro l
  induction l with
  | nil =>
    intro acc p _ hacc h
    exact hacc p h
  | cons q rest ih =>
    intro acc p hl hacc h
    rw [findOwnerAux.eq_def] at h
    dsimp only at h
    by_cases hy : cell s c q = YES
    · rw [if_pos hy] at h
      exact absurd h (by simp)
    · rw [if_neg hy] at h
      by_cases hn : cell s c q ≠ NO
      · rw [if_pos hn] at h
        cases hc : acc with
        | none =>
          rw [hc] at h
          refine ih (some q) p
            (fun q' hq' => hl q' (List.mem_cons_of_mem q hq')) ?_ h
          intro p₀ hp₀
          obtain rfl : q = p₀ := by simpa using hp₀
          exact ⟨hl q (List.mem_cons_self q rest), ⟨hy, hn⟩⟩
        | some r =>
          rw [hc] at h
          exact absurd h (by simp)
      · rw [if_neg hn] at h
        exact ih acc p (fun q' hq' => hl q' (List.mem_cons_of_mem q hq'))
          hacc h

theorem find_owner_some {n : ℕ} {s : Sheet} {c : Card} {p : ℕ}
    (h : find_owner n s c = some p) : p < n ∧ Unk (cell s c p) :=
  findOwnerAux_some (List.range n) none p
    (fun q hq => List.mem_range.mp hq) (fun _ h' => by simp at h') h

theorem simplify_solved_category_ok {n : ℕ} {s : Sheet} (hw : WF n s)
    (cat : List Card) : RuleOK n s (simplify_solved_category n s cat) := by
  unfold simplify_solved_category
  cases hfind : cat.find? (fun c => is_solution n s c) with
  | none => exact Or.inl rfl
  | some sol =>
    apply foldl_ruleOK _ cat _ (s, false) hw
    intro y a _ hwy
    dsimp only
    by_cases hc : a = sol
    · rw [if_pos hc]
      exact Or.inl rfl
    · rw [if_neg hc]
      cases hown : find_owner n y.1 a with
      | none => exact Or.inl rfl
      | some q =>
        obtain ⟨hq, hu⟩ := find_owner_some hown
        exact Or.inr ⟨mark_yes_strict hwy hq hu, rfl⟩

theorem simplify_solved_categories_ok {n : ℕ} {s : Sheet} (hw : WF n s) :
    RuleOK n s (simplify_solved_categories n s) := by
  unfold simplify_solved_categories
  have ha := simplify_solved_category_ok hw SUSPECTS
  have hb := simplify_solved_category_ok (ruleOK_wf hw ha) WEAPONS
  have hc := simplify_solved_category_ok (ruleOK_wf (ruleOK_wf hw ha) hb)
    ROOMS
  exact ruleOK_comp (ruleOK_comp ha hb) hc

theorem simplify_single_possible_ok {n : ℕ} {s : Sheet} (hw : WF n s)
    (cat : List Card) : RuleOK n s (simplify_single_possible n s cat) := by
  unfold simplify_single_possible
  cases hfp : find_possible_cards n s cat with
  | nil => exact Or.inl rfl
  | cons x rest =>
    cases rest with
    | nil => exact fill_row_ok hw x (Or.inr rfl)
    | cons y rest2 => exact Or.inl rfl

theorem simplify_single_possibilities_ok {n : ℕ} {s : Sheet} (hw : WF n s) :
    RuleOK n s (simplify_single_possibilities n s) := by
  unfold simplify_single_possibilities
  have ha := simplify_single_possible_ok hw SUSPECTS
  have hb := simplify_single_possible_ok (ruleOK_wf hw ha) WEAPONS
  have hc := simplify_single_possible_ok (ruleOK_wf (ruleOK_wf hw ha) hb)
    ROOMS
  exact ruleOK_comp (ruleOK_comp ha hb) hc

theorem simplify_sufficient_shown_cards_ok {n : ℕ} {hs : List ℕ} {s : Sheet}
    (hw : WF n s) : RuleOK n s (simplify_sufficient_shown_cards n hs s) := by
  unfold simplify_sufficient_shown_cards
  apply foldl_ruleOK _ (List.range n) _ (s, false) hw
  intro y a ha hwy
  dsimp only
  split
  · apply foldl_ruleOK _ cardList _ y hwy
    intro y2 c _ hwy2
    dsimp only
    by_cases hcond2 : cell y2.1 c a = (∅ : Finset ℤ)
    · rw [if_pos hcond2]
      refine Or.inr ⟨mark_no_strict hwy2 (List.mem_range.mp ha) ?_, rfl⟩
      rw [hcond2]
      exact unk_empty
    · rw [if_neg hcond2]
      exact Or.inl rfl
  · exact Or.inl rfl

/-! ## Support lemmas for rule 6 -/

/-- Marking an unknown cell that still carries ids strictly decreases the
total id count. -/
theorem mark_yes_occ_lt {n : ℕ} {s : Sheet} (hw : WF n s) {c : Card} {p : ℕ}
    (hp : p < n) (hu : Unk (cell s c p)) (hne : cell s c p ≠ ∅) :
    idOcc n (mark_yes s c p) < idOcc n s := by
  have hpos : ∀ x ∈ cell s c p, 0 < x := WFcell_pos (hw.2 c p hp) hu
  have hchar := cell_mark_yes_wf hw hp hpos
  have hothers : ∀ p', p' ≠ p → ∀ c' : Card,
      cell (mark_yes s c p) c' p' = cell s c' p' := by
    intro p' hne' c'
    rw [cell_mark_yes hw.1 hp c c' p', if_neg hne']
  have hinner : ∀ c0 : Card, cell (mark_yes s c p) c0 p =
      if c0 = c then YES
      else if cell s c0 p = YES then YES
      else if cell s c0 p = NO then NO
      else cell s c0 p \ cell s c p := by
    intro c0
    rw [hchar c0 p hp]
    exact if_pos rfl
  apply idOcc_lt_of_col hp hothers
  apply Finset.sum_lt_sum
  · intro c0 _
    by_cases hc : c0 = c
    · rw [hinner c0, if_pos hc, if_neg (fun h => h.1 rfl)]
      exact Nat.zero_le _
    · rw [hinner c0, if_neg hc]
      by_cases hy : cell s c0 p = YES
      · rw [if_pos hy, hy]
      · rw [if_neg hy]
        by_cases hn : cell s c0 p = NO
        · rw [if_pos hn, hn]
        · rw [if_neg hn]
          have hu0 : Unk (cell s c0 p) := ⟨hy, hn⟩
          have hus : Unk (cell s c0 p \ cell s c p) :=
            pos_unk (sdiff_pos (WFcell_pos (hw.2 c0 p hp) hu0))
          rw [if_pos hus, if_pos hu0]
          exact Finset.card_le_card Finset.sdiff_subset
  · refine ⟨c, Finset.mem_univ c, ?_⟩
    rw [hinner c, if_pos rfl, if_neg (fun h => h.1 rfl), if_pos hu]
    have : 0 < (cell s c p).card := Finset.card_pos.mpr
      (Finset.nonempty_iff_ne_empty.mpr hne)
    omega

/-- Cell-level effect of re-marking an already-`YES` cell. -/
theorem cell_mark_yes_yes {n : ℕ} {s : Sheet} (hw : WF n s) {c : Card}
    {p : ℕ} (hp : p < n) (hy : cell s c p = YES) (c0 : Card) (p0 : ℕ)
    (hp0 : p0 < n) :
    cell (mark_yes s c p) c0 p0 =
      if p0 = p then
        (if c0 = c then YES
         else if cell s c0 p0 = YES then (∅ : Finset ℤ) else cell s c0 p0)
      else cell s c0 p0 := by
  have hchar0 := cell_mark_yes hw.1 hp c
  rw [hchar0 c0 p0]
  by_cases hpp : p0 = p
  · subst hpp
    rw [if_pos rfl, if_pos rfl]
    by_cases hc : c0 = c
    · rw [if_pos hc, if_pos hc]
    · rw [if_neg hc, if_neg hc, hy]
      by_cases hy0 : cell s c0 p0 = YES
      · rw [if_pos hy0, hy0, Finset.sdiff_self]
      · rw [if_neg hy0]
        rcases hw.2 c0 p0 hp0 with h | h | h
        · exact absurd h hy0
        · rw [h, NO_sdiff_YES]
        · rw [Finset.sdiff_eq_self_of_disjoint]
          rw [Finset.disjoint_left]
          intro a ha hay
          have h1 : a = -1 := by simpa [YES] using hay
          have := h a ha
          omega
  · rw [if_neg hpp, if_neg hpp]

theorem sortIds_spec (t : Finset ℤ) :
    (sortIds t).Nodup ∧ ∀ a : ℤ, a ∈ sortIds t ↔ a ∈ t := by
  obtain ⟨ms, hnd⟩ := t
  induction ms using Quotient.inductionOn with
  | h l =>
    have heq : sortIds ⟨Quotient.mk _ l, hnd⟩ =
        List.insertionSort (· ≤ ·) l := rfl
    rw [heq]
    constructor
    · exact ((List.perm_insertionSort _ l).nodup_iff).mpr hnd
    · intro a
      rw [(List.perm_insertionSort _ l).mem_iff]
      rfl

/-- Membership in the disproof-id map determines key and candidate list. -/
theorem mem_disproof_map {s : Sheet} {p : ℕ} {g : ℤ} {cs : List Card}
    (h : (g, cs) ∈ get_disproof_id_map s p) :
    g ∈ openIds s p ∧
      ∀ c : Card, c ∈ cs ↔ (Unk (cell s c p) ∧ g ∈ cell s c p) := by
  unfold get_disproof_id_map at h
  obtain ⟨g', hg', heq⟩ := List.mem_map.mp h
  have h1 : g' = g := congrArg Prod.fst heq
  subst h1
  have h2 : (cardList.filter fun c =>
      decide ((cell s c p ≠ YES ∧ cell s c p ≠ NO) ∧ g' ∈ cell s c p)) =
      cs := by simpa using congrArg Prod.snd heq
  subst h2
  refine ⟨((sortIds_spec (openIds s p)).2 g').mp hg', ?_⟩
  intro c
  rw [List.mem_filter]
  constructor
  · intro ⟨_, hpred⟩
    simpa using hpred
  · intro hc
    refine ⟨List.mem_finRange c, by simpa using hc⟩

/-- The keys of the disproof-id map are distinct. -/
theorem disproof_map_keys_nodup (s : Sheet) (p : ℕ) :
    ((get_disproof_id_map s p).map Prod.fst).Nodup := by
  unfold get_disproof_id_map
  rw [List.map_map]
  have : (Prod.fst ∘ fun g : ℤ =>
      (g, cardList.filter fun c =>
        decide ((cell s c p ≠ YES ∧ cell s c p ≠ NO) ∧ g ∈ cell s c p))) =
      id := rfl
  rw [this, List.map_id]
  exact (sortIds_spec (openIds s p)).1

/-- Two distinct claim ids whose candidate lists are both the singleton
`[x]` force two ids in the cell of `x`, contradicting `Hcol`. -/
theorem two_singletons_not_hcol {s : Sheet} {p : ℕ} {g g₂ : ℤ} {x : Card}
    (h1 : (g, [x]) ∈ get_disproof_id_map s p)
    (h2 : (g₂, [x]) ∈ get_disproof_id_map s p) (hne : g ≠ g₂) :
    ¬Hcol s p := by
  intro hH
  obtain ⟨_, hc1⟩ := mem_disproof_map h1
  obtain ⟨_, hc2⟩ := mem_disproof_map h2
  have hx1 := (hc1 x).mp (List.mem_singleton_self x)
  have hx2 := (hc2 x).mp (List.mem_singleton_self x)
  have hcard : 1 < (cell s x p).card := by
    rw [Finset.one_lt_card]
    exact ⟨g, hx1.2, g₂, hx2.2, hne⟩
  have := hH x hx1.1
  omega

theorem r6_aux {n : ℕ} {s : Sheet} {p : ℕ} (hw : WF n s) (hp : p < n) :
    ∀ (l : List (ℤ × List Card)) (t : Sheet) (b : Bool),
      (∀ gc ∈ l, gc ∈ get_disproof_id_map s p) →
      (l.map Prod.fst).Nodup →
      R6Inv n s p t b →
      R6Stale n s p t l →
      R6Inv n s p
        (l.foldl (fun acc gc =>
          match gc.2 with
          | [x] => (mark_yes acc.1 x p, true)
          | _ => acc) (t, b)).1
        (l.foldl (fun acc gc =>
          match gc.2 with
          | [x] => (mark_yes acc.1 x p, true)
          | _ => acc) (t, b)).2 := by
  intro l
  induction l with
  | nil =>
    intro t b _ _ hinv _
    exact hinv
  | cons gc rest ih =>
    intro t b hmem hkeys hinv hstale
    obtain ⟨g, cs⟩ := gc
    rw [List.foldl_cons]
    have hmem' : ∀ gc ∈ rest, gc ∈ get_disproof_id_map s p :=
      fun gc h => hmem gc (List.mem_cons_of_mem _ h)
    have hkeys' : (rest.map Prod.fst).Nodup :=
      (List.nodup_cons.mp hkeys).2
    match hcs : cs with
    | [] =>
      exact ih t b hmem' hkeys' hinv
        (fun gc h x hx => hstale gc (List.mem_cons_of_mem _ h) x hx)
    | x :: x2 :: xs =>
      exact ih t b hmem' hkeys' hinv
        (fun gc h x hx => hstale gc (List.mem_cons_of_mem _ h) x hx)
    | [x] =>
      obtain ⟨hwt, hoccle, _, _, hnop, hids, hunt, hyp⟩ := hinv
      have hhead := hstale (g, [x]) (List.mem_cons_self _ _) x rfl
      have hheadM : (g, [x]) ∈ get_disproof_id_map s p :=
        hmem (g, [x]) (List.mem_cons_self _ _)
      by_cases hY : cell t x p = YES
      · -- the stale singleton was already re-marked: sentinel subtraction
        obtain ⟨wf', occeq, nop', ids', unt', hcY⟩ :=
          mark_yes_on_yes hwt hp hY
        have hlt : idOcc n t < idOcc n s := hhead.1 hY
        have hlt' : idOcc n (mark_yes t x p) < idOcc n s := by omega
        have hchar := cell_mark_yes_yes hwt hp hY
        apply ih (mark_yes t x p) true hmem' hkeys'
        · refine ⟨wf', le_of_lt hlt', fun h => Bool.noConfusion h,
            fun _ => Or.inl hlt', ?_, ?_, ?_, ?_⟩
          · exact fun c q h => nop' c q (hnop c q h)
          · intro c q i hu hi
            obtain ⟨hu1, hi1⟩ := ids' c q i hu hi
            exact hids c q i hu1 hi1
          · intro q hq c
            rw [cell_mark_yes hwt.1 hp x c q, if_neg hq]
            exact hunt q hq c
          · intro hH
            exact absurd hY (hhead.2.2 hH)
        · intro gc2 h2 x2 hx2
          obtain ⟨g2, cs2⟩ := gc2
          obtain rfl : cs2 = [x2] := hx2
          have hold := hstale (g2, [x2]) (List.mem_cons_of_mem _ h2) x2 rfl
          refine ⟨fun _ => hlt', fun hne2 => ?_, fun hH => ?_⟩
          · refine ⟨?_, Or.inr hlt'⟩
            rw [hchar x2 p hp, if_pos rfl] at hne2 ⊢
            by_cases hcx : x2 = x
            · rw [if_pos hcx] at hne2
              exact absurd rfl hne2
            · rw [if_neg hcx] at hne2 ⊢
              by_cases hY2 : cell t x2 p = YES
              · rw [if_pos hY2]
                exact unk_empty
              · rw [if_neg hY2] at hne2 ⊢
                exact (hold.2.1 hY2).1
          · exact absurd hY (hhead.2.2 hH)
      · -- a live singleton: the normal rule-6 mark on an unknown cell
        obtain ⟨hUnk, hOr⟩ := hhead.2.1 hY
        have hpos : ∀ z ∈ cell t x p, 0 < z :=
          WFcell_pos (hwt.2 x p hp) hUnk
        obtain ⟨⟨wf', occle', nop', ids', _⟩, _⟩ :=
          mark_yes_strict hwt hp hUnk
        have hchar := cell_mark_yes_wf hwt hp hpos
        have hunt' : ∀ q, q ≠ p → ∀ c : Card,
            cell (mark_yes t x p) c q = cell t c q := by
          intro q hq c
          rw [cell_mark_yes hwt.1 hp x c q, if_neg hq]
        have hlt' : idOcc n (mark_yes t x p) < idOcc n s := by
          rcases hOr with hg | hlt
          · exact lt_of_lt_of_le
              (mark_yes_occ_lt hwt hp hUnk (Finset.ne_empty_of_mem hg))
              hoccle
          · exact lt_of_le_of_lt occle' hlt
        apply ih (mark_yes t x p) true hmem' hkeys'
        · refine ⟨wf', le_of_lt hlt', fun h => Bool.noConfusion h,
            fun _ => Or.inl hlt', ?_, ?_, ?_, ?_⟩
          · exact fun c q h => nop' c q (hnop c q h)
          · intro c q i hu hi
            obtain ⟨hu1, hi1⟩ := ids' c q i hu hi
            exact hids c q i hu1 hi1
          · exact fun q hq c => (hunt' q hq c).trans (hunt q hq c)
          · intro hH c hYs
            have h1 : cell t c p = YES := hyp hH c hYs
            have hcx : c ≠ x := fun h => hY (h ▸ h1)
            rw [hchar c p hp, if_pos rfl, if_neg hcx, if_pos h1]
        · intro gc2 h2 x2 hx2
          obtain ⟨g2, cs2⟩ := gc2
          obtain rfl : cs2 = [x2] := hx2
          have hold := hstale (g2, [x2]) (List.mem_cons_of_mem _ h2) x2 rfl
          have hM2 : (g2, [x2]) ∈ get_disproof_id_map s p :=
            hmem' (g2, [x2]) h2
          have hne12 : g ≠ g2 := by
            intro h
            apply (List.nodup_cons.mp hkeys).1
            rw [h]
            exact List.mem_map.mpr ⟨(g2, [x2]), h2, rfl⟩
          refine ⟨fun _ => hlt', fun hne2 => ?_, fun hH => ?_⟩
          · refine ⟨?_, Or.inr hlt'⟩
            rw [hchar x2 p hp, if_pos rfl] at hne2 ⊢
            by_cases hcx : x2 = x
            · rw [if_pos hcx] at hne2
              exact absurd rfl hne2
            · rw [if_neg hcx] at hne2 ⊢
              by_cases hY2 : cell t x2 p = YES
              · rw [if_pos hY2] at hne2
                exact absurd rfl hne2
              · rw [if_neg hY2] at hne2 ⊢
                have hu2 : Unk (cell t x2 p) := (hold.2.1 hY2).1
                rw [if_neg hu2.2]
                exact pos_unk (sdiff_pos (WFcell_pos (hwt.2 x2 p hp) hu2))
          · by_cases hcx : x2 = x
            · subst hcx
              exact absurd hH (two_singletons_not_hcol hheadM hM2 hne12)
            · have hne3 : cell t x2 p ≠ YES := hold.2.2 hH
              rw [hchar x2 p hp, if_pos rfl, if_neg hcx, if_neg hne3]
              have hu2 : Unk (cell t x2 p) := (hold.2.1 hne3).1
              rw [if_neg hu2.2]
              exact (pos_unk (sdiff_pos
                (WFcell_pos (hwt.2 x2 p hp) hu2))).1

theorem simplify_single_shown_one_ok {n : ℕ} {s : Sheet} {p : ℕ}
    (hw : WF n s) (hp : p < n) :
    RuleOK n s (simplify_single_shown_one s p) := by
  unfold simplify_single_shown_one
  have hinv0 : R6Inv n s p s false :=
    ⟨hw, le_refl _, fun _ => rfl, fun h => Bool.noConfusion h,
      fun _ _ h => h, fun _ _ _ hu hi => ⟨hu, hi⟩, fun _ _ _ => rfl,
      fun _ _ h => h⟩
  have hstale0 : R6Stale n s p s (get_disproof_id_map s p) := by
    intro gc hgc x hx
    obtain ⟨g, cs⟩ := gc
    obtain rfl : cs = [x] := hx
    have hchar := mem_disproof_map hgc
    have hx1 := (hchar.2 x).mp (List.mem_singleton_self x)
    exact ⟨fun hY => absurd hY hx1.1.1, fun _ => ⟨hx1.1, Or.inl hx1.2⟩,
      fun _ => hx1.1.1⟩
  have h := r6_aux hw hp (get_disproof_id_map s p) s false
    (fun _ h => h) (disproof_map_keys_nodup s p) hinv0 hstale0
  obtain ⟨hwf, hocc, hfalse, htrue, hnop, hids, hunt, hyp⟩ := h
  set r := (get_disproof_id_map s p).foldl
    (fun acc gc =>
      match gc.2 with
      | [x] => (mark_yes acc.1 x p, true)
      | _ => acc) (s, false) with hr
  cases hb : r.2 with
  | false =>
    left
    have h1 : r.1 = s := hfalse hb
    calc r = (r.1, r.2) := rfl
      _ = (s, false) := by rw [h1, hb]
  | true =>
    right
    refine ⟨⟨⟨hwf, hocc, hnop, hids, ?_⟩, htrue hb⟩, hb⟩
    intro q hq c hYs
    by_cases hqp : q = p
    · subst hqp
      exact hyp hq c hYs
    · rw [hunt q hqp c]
      exact hYs

theorem simplify_single_shown_cards_ok {n : ℕ} {s : Sheet} (hw : WF n s) :
    RuleOK n s (simplify_single_shown_cards n s) := by
  unfold simplify_single_shown_cards
  apply foldl_ruleOK _ (List.range n) _ (s, false) hw
  intro y a ha hwy
  dsimp only
  rcases simplify_single_shown_one_ok hwy (List.mem_range.mp ha) with
    heq | ⟨hstr, hflag⟩
  · rw [heq]
    exact Or.inl (by simp)
  · exact Or.inr ⟨hstr, by rw [hflag, Bool.true_or]⟩

/-! ## One full pass satisfies the rule contract; the loop reaches a
fixed point -/

theorem runPass_ok {n : ℕ} {hs : List ℕ} {s : Sheet} (hw : WF n s) :
    RuleOK n s (runPass n hs s) := by
  unfold runPass
  have h1 := simplify_known_holders_ok hw
  have w1 := ruleOK_wf hw h1
  have h2 := @simplify_max_no_counts_ok n hs _ w1
  have w2 := ruleOK_wf w1 h2
  have h3 := @simplify_max_yes_counts_ok n hs _ w2
  have w3 := ruleOK_wf w2 h3
  have h4 := simplify_solved_categories_ok w3
  have w4 := ruleOK_wf w3 h4
  have h5 := simplify_single_possibilities_ok w4
  have w5 := ruleOK_wf w4 h5
  have h6 := simplify_single_shown_cards_ok w5
  have w6 := ruleOK_wf w5 h6
  have h7 := @simplify_sufficient_shown_cards_ok n hs _ w6
  exact ruleOK_comp (ruleOK_comp (ruleOK_comp (ruleOK_comp
    (ruleOK_comp (ruleOK_comp h1 h2) h3) h4) h5) h6) h7

theorem runPass_wf {n : ℕ} {hs : List ℕ} {s : Sheet} (hw : WF n s) :
    WF n (runPass n hs s).1 := ruleOK_wf hw (runPass_ok hw)

/-- The fixed-point loop of `_simplify` stops at a sheet where one more
pass changes nothing, and that sheet is reached by good transitions. -/
theorem simplifyAux_fixed {n : ℕ} {hs : List ℕ} :
    ∀ (fuel : ℕ) (s : Sheet), WF n s → measureOf n s < fuel →
      runPass n hs (simplifyAux n hs fuel s) =
          (simplifyAux n hs fuel s, false) ∧
        WF n (simplifyAux n hs fuel s) ∧
        (simplifyAux n hs fuel s = s ∨ TrStrict n s (simplifyAux n hs fuel s)) := by
  intro fuel
  induction fuel with
  | zero =>
    intro s _ hm
    omega
  | succ f ih =>
    intro s hw hm
    have hok := @runPass_ok n hs s hw
    rw [simplifyAux]
    cases hb : (runPass n hs s).2 with
    | false =>
      have heq : runPass n hs s = (s, false) := by
        rcases hok with heq | ⟨_, hflag⟩
        · exact heq
        · rw [hb] at hflag
          exact absurd hflag (by simp)
      simp only [if_neg (by simp : ¬(false = true))]
      have h1 : (runPass n hs s).1 = s := by rw [heq]
      rw [h1]
      exact ⟨heq, hw, Or.inl rfl⟩
    | true =>
      have hstr : TrStrict n s (runPass n hs s).1 := by
        rcases hok with heq | ⟨hstr, _⟩
        · rw [heq] at hb
          exact absurd hb (by simp)
        · exact hstr
      have hwf1 : WF n (runPass n hs s).1 := hstr.1.1
      have hm1 : measureOf n (runPass n hs s).1 < f :=
        lt_of_lt_of_le (lexlt_measure hstr.2) (by omega)
      simp only [if_pos rfl]
      obtain ⟨hfix, hwf2, hreach⟩ := ih (runPass n hs s).1 hwf1 hm1
      refine ⟨hfix, hwf2, Or.inr ?_⟩
      rcases hreach with heq2 | hstr2
      · rw [heq2]
        exact hstr
      · exact trStrict_trans hstr hstr2

/-- `Ledger._simplify` reaches a fixed point of the rule engine. -/
theorem simplify_fixed {n : ℕ} {hs : List ℕ} {s : Sheet} (hw : WF n s) :
    runPass n hs (simplify n hs s) = (simplify n hs s, false) ∧
      WF n (simplify n hs s) ∧
      (simplify n hs s = s ∨ TrStrict n s (simplify n hs s)) :=
  simplifyAux_fixed (measureOf n s + 1) s hw (by omega)

/-! ## What a no-change pass says about the final sheet -/

theorem foldl_flag_mono {α : Type} (f : Sheet × Bool → α → Sheet × Bool)
    (hmono : ∀ y a, y.2 = true → (f y a).2 = true) :
    ∀ (l : List α) (x : Sheet × Bool), x.2 = true →
      (l.foldl f x).2 = true := by
  intro l
  induction l with
  | nil => intro x hx; exact hx
  | cons a rest ih =>
    intro x hx
    rw [List.foldl_cons]
    exact ih (f x a) (hmono x a hx)

theorem foldl_fix {α : Type} {n : ℕ} (f : Sheet × Bool → α → Sheet × Bool)
    (hmono : ∀ y a, y.2 = true → (f y a).2 = true) :
    ∀ l : List α,
      (∀ y a, a ∈ l → WF n y.1 → (f y a).2 = false → f y a = y) →
      ∀ x : Sheet × Bool, WF n x.1 → (l.foldl f x).2 = false →
        l.foldl f x = x ∧ ∀ a ∈ l, f x a = x := by
  intro l
  induction l with
  | nil =>
    intro _ x _ _
    exact ⟨rfl, fun a ha => absurd ha (List.not_mem_nil a)⟩
  | cons a rest ih =>
    intro hstep x hw hres
    rw [List.foldl_cons] at hres ⊢
    have hfa : (f x a).2 = false := by
      by_contra hne
      have : (f x a).2 = true := by
        cases h2 : (f x a).2
        · exact absurd h2 hne
        · rfl
      have := foldl_flag_mono f hmono rest (f x a) this
      rw [this] at hres
      exact absurd hres (by simp)
    have hfix : f x a = x :=
      hstep x a (List.mem_cons_self a rest) hw hfa
    rw [hfix] at hres ⊢
    obtain ⟨h1, h2⟩ := ih
      (fun y a' ha' => hstep y a' (List.mem_cons_of_mem a ha')) x hw hres
    exact ⟨h1, fun a' ha' => by
      rcases List.mem_cons.mp ha' with rfl | hmem
      · exact hfix
      · exact h2 a' hmem⟩

/-- At a fixed point of the whole pass, each individual rule leaves the
sheet unchanged with a clear flag. -/
theorem runPass_false_parts {n : ℕ} {hs : List ℕ} {t : Sheet} (hw : WF n t)
    (h : runPass n hs t = (t, false)) :
    simplify_known_holders n t = (t, false) ∧
      simplify_sufficient_shown_cards n hs t = (t, false) := by
  have hflag : (runPass n hs t).2 = false := by rw [h]
  unfold runPass at hflag
  simp only [Bool.or_eq_false_iff] at hflag
  obtain ⟨⟨⟨⟨⟨⟨ha, hb⟩, hc⟩, hd⟩, he⟩, hf⟩, hg⟩ := hflag
  have h1 := simplify_known_holders_ok hw
  have e1 : simplify_known_holders n t = (t, false) := by
    rcases h1 with heq | ⟨_, hfl⟩
    · exact heq
    · rw [hfl] at ha
      exact absurd ha (by simp)
  have w1 : WF n t := hw
  have hb1 : (simplify_max_no_counts n hs t).1 =
      (simplify_max_no_counts n hs (simplify_known_holders n t).1).1 := by
    rw [e1]
  have h2 := @simplify_max_no_counts_ok n hs t hw
  have e2 : simplify_max_no_counts n hs t = (t, false) := by
    rcases h2 with heq | ⟨_, hfl⟩
    · exact heq
    · rw [e1] at hb
      rw [hfl] at hb
      exact absurd hb (by simp)
  have h3 := @simplify_max_yes_counts_ok n hs t hw
  have e3 : simplify_max_yes_counts n hs t = (t, false) := by
    rcases h3 with heq | ⟨_, hfl⟩
    · exact heq
    · rw [e1, e2] at hc
      rw [hfl] at hc
      exact absurd hc (by simp)
  have h4 := simplify_solved_categories_ok (n := n) (s := t) hw
  have e4 : simplify_solved_categories n t = (t, false) := by
    rcases h4 with heq | ⟨_, hfl⟩
    · exact heq
    · rw [e1, e2, e3] at hd
      rw [hfl] at hd
      exact absurd hd (by simp)
  have h5 := simplify_single_possibilities_ok (n := n) (s := t) hw
  have e5 : simplify_single_possibilities n t = (t, false) := by
    rcases h5 with heq | ⟨_, hfl⟩
    · exact heq
    · rw [e1, e2, e3, e4] at he
      rw [hfl] at he
      exact absurd he (by simp)
  have h6 := simplify_single_shown_cards_ok (n := n) (s := t) hw
  have e6 : simplify_single_shown_cards n t = (t, false) := by
    rcases h6 with heq | ⟨_, hfl⟩
    · exact heq
    · rw [e1, e2, e3, e4, e5] at hf
      rw [hfl] at hf
      exact absurd hf (by simp)
  have h7 := @simplify_sufficient_shown_cards_ok n hs t hw
  have e7 : simplify_sufficient_shown_cards n hs t = (t, false) := by
    rcases h7 with heq | ⟨_, hfl⟩
    · exact heq
    · rw [e1, e2, e3, e4, e5, e6] at hg
      rw [hfl] at hg
      exact absurd hg (by simp)
  exact ⟨e1, e7⟩

/-- At a fixed point, a participant with sufficient shown-card coverage has
no cell left with an empty claim-group set. -/
theorem r7_false_char {n : ℕ} {hs : List ℕ} {t : Sheet} (hw : WF n t)
    (h : simplify_sufficient_shown_cards n hs t = (t, false)) :
    ∀ p < n, has_sufficient_shown_cards hs t p = true →
      ∀ c : Card, cell t c p ≠ (∅ : Finset ℤ) := by
  intro p hp hsuff c hcell
  have hEq : simplify_sufficient_shown_cards n hs t =
      (List.range n).foldl
        (fun acc q =>
          if has_sufficient_shown_cards hs acc.1 q = true then
            cardList.foldl
              (fun acc2 c2 =>
                if cell acc2.1 c2 q = (∅ : Finset ℤ) then
                  (mark_no acc2.1 c2 q, true)
                else acc2)
              acc
          else acc)
        (t, false) := rfl
  rw [hEq] at h
  have hinnermono : ∀ (q : ℕ) (y : Sheet × Bool) (c2 : Card), y.2 = true →
      (if cell y.1 c2 q = (∅ : Finset ℤ) then (mark_no y.1 c2 q, true)
        else y).2 = true := by
    intro q y c2 hy
    split
    · rfl
    · exact hy
  have hinnerfix : ∀ (q : ℕ) (y : Sheet × Bool), WF n y.1 →
      (cardList.foldl
        (fun acc2 c2 =>
          if cell acc2.1 c2 q = (∅ : Finset ℤ) then (mark_no acc2.1 c2 q, true)
          else acc2) y).2 = false →
      cardList.foldl
        (fun acc2 c2 =>
          if cell acc2.1 c2 q = (∅ : Finset ℤ) then (mark_no acc2.1 c2 q, true)
          else acc2) y = y ∧
      ∀ c2 ∈ cardList,
        (fun acc2 c2 =>
          if cell acc2.1 c2 q = (∅ : Finset ℤ) then (mark_no acc2.1 c2 q, true)
          else acc2) y c2 = y := by
    intro q y hwy hflag
    exact foldl_fix (n := n)
      (fun acc2 c2 =>
        if cell acc2.1 c2 q = (∅ : Finset ℤ) then (mark_no acc2.1 c2 q, true)
        else acc2)
      (fun y2 c2 hy2 => hinnermono q y2 c2 hy2)
      cardList
      (fun y2 c2 _ _ hf => by
        have hf2 : (if cell y2.1 c2 q = (∅ : Finset ℤ) then
            (mark_no y2.1 c2 q, true) else y2).2 = false := hf
        show (if cell y2.1 c2 q = (∅ : Finset ℤ) then
            (mark_no y2.1 c2 q, true) else y2) = y2
        split
        · rename_i hcond
          rw [if_pos hcond] at hf2
          exact absurd hf2 (by simp)
        · rfl)
      y hwy hflag
  obtain ⟨_, hsteps⟩ := foldl_fix (n := n)
    (fun acc q =>
      if has_sufficient_shown_cards hs acc.1 q = true then
        cardList.foldl
          (fun acc2 c2 =>
            if cell acc2.1 c2 q = (∅ : Finset ℤ) then (mark_no acc2.1 c2 q, true)
            else acc2)
          acc
      else acc)
    (fun y q hy => by
      show (if has_sufficient_shown_cards hs y.1 q = true then
          cardList.foldl
            (fun acc2 c2 =>
              if cell acc2.1 c2 q = (∅ : Finset ℤ) then
                (mark_no acc2.1 c2 q, true)
              else acc2) y
        else y).2 = true
      split
      · exact foldl_flag_mono _ (fun y2 c2 hy2 => hinnermono q y2 c2 hy2)
          cardList y hy
      · exact hy)
    (List.range n)
    (fun y q _ hwy hf => by
      have hf2 : (if has_sufficient_shown_cards hs y.1 q = true then
          cardList.foldl
            (fun acc2 c2 =>
              if cell acc2.1 c2 q = (∅ : Finset ℤ) then
                (mark_no acc2.1 c2 q, true)
              else acc2) y
        else y).2 = false := hf
      show (if has_sufficient_shown_cards hs y.1 q = true then
          cardList.foldl
            (fun acc2 c2 =>
              if cell acc2.1 c2 q = (∅ : Finset ℤ) then
                (mark_no acc2.1 c2 q, true)
              else acc2) y
        else y) = y
      split
      · rename_i hcond
        rw [if_pos hcond] at hf2
        exact (hinnerfix q y hwy hf2).1
      · rfl)
    (t, false) hw (by rw [h])
  have hstep := hsteps p (List.mem_range.mpr hp)
  have hstep2 : (if has_sufficient_shown_cards hs t p = true then
      cardList.foldl
        (fun acc2 c2 =>
          if cell acc2.1 c2 p = (∅ : Finset ℤ) then (mark_no acc2.1 c2 p, true)
          else acc2) ((t, false) : Sheet × Bool)
    else ((t, false) : Sheet × Bool)) = (t, false) := hstep
  rw [if_pos hsuff] at hstep2
  obtain ⟨_, hcards⟩ := hinnerfix p (t, false) hw (by rw [hstep2])
  have hc := hcards c (List.mem_finRange c)
  have hc2 : (if cell t c p = (∅ : Finset ℤ) then (mark_no t c p, true)
      else ((t, false) : Sheet × Bool)) = (t, false) := hc
  rw [if_pos hcell] at hc2
  exact absurd (congrArg Prod.snd hc2) (by simp)

/-- At a fixed point, a row containing a `YES` has every cell settled. -/
theorem r1_false_char {n : ℕ} {t : Sheet} (hw : WF n t)
    (h : simplify_known_holders n t = (t, false)) :
    ∀ c : Card, (∃ p < n, cell t c p = YES) →
      ∀ p < n, cell t c p = YES ∨ cell t c p = NO := by
  intro c hex p hp
  have hEq : simplify_known_holders n t =
      cardList.foldl
        (fun acc c2 =>
          if ((List.range n).any fun q => decide (cell acc.1 c2 q = YES)) = true
            then ((fill_row n acc.1 c2 NO).1, (fill_row n acc.1 c2 NO).2 || acc.2)
          else acc)
        (t, false) := rfl
  rw [hEq] at h
  obtain ⟨_, hsteps⟩ := foldl_fix (n := n)
    (fun acc c2 =>
      if ((List.range n).any fun q => decide (cell acc.1 c2 q = YES)) = true
        then ((fill_row n acc.1 c2 NO).1, (fill_row n acc.1 c2 NO).2 || acc.2)
      else acc)
    (fun y a hy => by
      show (if ((List.range n).any fun q => decide (cell y.1 a q = YES)) = true
          then ((fill_row n y.1 a NO).1, (fill_row n y.1 a NO).2 || y.2)
        else y).2 = true
      split
      · show ((fill_row n y.1 a NO).2 || y.2) = true
        rw [hy, Bool.or_true]
      · exact hy)
    cardList
    (fun y a _ hwy hf => by
      have hf2 : (if ((List.range n).any fun q =>
            decide (cell y.1 a q = YES)) = true
          then ((fill_row n y.1 a NO).1, (fill_row n y.1 a NO).2 || y.2)
        else y).2 = false := hf
      show (if ((List.range n).any fun q => decide (cell y.1 a q = YES)) = true
          then ((fill_row n y.1 a NO).1, (fill_row n y.1 a NO).2 || y.2)
        else y) = y
      split
      · rename_i hcond
        rw [if_pos hcond] at hf2
        have hf3 : (fill_row n y.1 a NO).2 = false ∧ y.2 = false := by
          have hor : ((fill_row n y.1 a NO).2 || y.2) = false := hf2
          exact Bool.or_eq_false_iff.mp hor
        rcases fill_row_ok hwy a (Or.inr rfl) with heq | ⟨_, hfl⟩
        · rw [heq]
          show (y.1, false || y.2) = y
          rw [Bool.false_or]
        · rw [hfl] at hf3
          exact absurd hf3.1 (by simp)
      · rfl)
    (t, false) hw (by rw [h])
  have hstep := hsteps c (List.mem_finRange c)
  have hany : ((List.range n).any fun q => decide (cell t c q = YES)) = true := by
    obtain ⟨q, hq, hcq⟩ := hex
    exact List.any_eq_true.mpr ⟨q, List.mem_range.mpr hq, by simp [hcq]⟩
  have hstep2 : (if ((List.range n).any fun q => decide (cell t c q = YES)) = true
      then ((fill_row n t c NO).1, (fill_row n t c NO).2 || false)
    else ((t, false) : Sheet × Bool)) = (t, false) := hstep
  rw [if_pos hany] at hstep2
  have hfr2 : (fill_row n t c NO).2 = false := by
    have h2 := congrArg Prod.snd hstep2
    simpa using h2
  have hfr1 : fill_row n t c NO = (t, false) := by
    rcases fill_row_ok hw c (Or.inr rfl) with heq | ⟨_, hfl⟩
    · exact heq
    · rw [hfl] at hfr2
      exact absurd hfr2 (by simp)
  have hEq2 : fill_row n t c NO =
      (List.range n).foldl
        (fun acc q =>
          if cell acc.1 c q ≠ YES ∧ cell acc.1 c q ≠ NO then
            (mark acc.1 c q NO, true)
          else acc)
        (t, false) := rfl
  rw [hEq2] at hfr1
  obtain ⟨_, hrow⟩ := foldl_fix (n := n)
    (fun acc q =>
      if cell acc.1 c q ≠ YES ∧ cell acc.1 c q ≠ NO then
        (mark acc.1 c q NO, true)
      else acc)
    (fun y a hy => by
      show (if cell y.1 c a ≠ YES ∧ cell y.1 c a ≠ NO then
          (mark y.1 c a NO, true) else y).2 = true
      split
      · rfl
      · exact hy)
    (List.range n)
    (fun y a _ _ hf => by
      have hf2 : (if cell y.1 c a ≠ YES ∧ cell y.1 c a ≠ NO then
          (mark y.1 c a NO, true) else y).2 = false := hf
      show (if cell y.1 c a ≠ YES ∧ cell y.1 c a ≠ NO then
          (mark y.1 c a NO, true) else y) = y
      split
      · rename_i hcond
        rw [if_pos hcond] at hf2
        exact absurd hf2 (by simp)
      · rfl)
    (t, false) hw (by rw [hfr1])
  have hcellstep := hrow p (List.mem_range.mpr hp)
  have hcs2 : (if cell t c p ≠ YES ∧ cell t c p ≠ NO then
      (mark t c p NO, true) else ((t, false) : Sheet × Bool)) = (t, false) :=
    hcellstep
  by_cases hcond : cell t c p ≠ YES ∧ cell t c p ≠ NO
  · rw [if_pos hcond] at hcs2
    exact absurd (congrArg Prod.snd hcs2) (by simp)
  · rcases not_and_or.mp hcond with h1 | h2
    · exact Or.inl (not_not.mp h1)
    · exact Or.inr (not_not.mp h2)

/-! ## The observation phases of `update` -/

theorem get_player_index_lt :
    ∀ {players : List String} {name : String} {i : ℕ},
      get_player_index players name = some i → i < players.length := by
  intro players
  induction players with
  | nil =>
    intro name i h
    exact Option.noConfusion h
  | cons v rest ih =>
    intro name i h
    rw [get_player_index] at h
    split at h
    · cases h
      simp
    · rcases Option.map_eq_some'.mp h with ⟨j, hj, hji⟩
      have := ih hj
      simp only [List.length_cons]
      omega

theorem wf_mark_no_any {n : ℕ} {s : Sheet} (hw : WF n s) (c : Card) {p : ℕ}
    (hp : p < n) : WF n (mark_no s c p) := by
  refine ⟨shape_mark_no hw.1 c p, ?_⟩
  intro c' p' hp'
  rw [cell_mark_no hw.1 hp c c' p']
  split
  · exact Or.inr (Or.inl rfl)
  · exact hw.2 c' p' hp'

theorem sdiff_singleton_cases {a : ℤ} {d : Finset ℤ} :
    ({a} : Finset ℤ) \ d = ∅ ∨ ({a} : Finset ℤ) \ d = {a} :=
  Finset.subset_singleton_iff.mp
    (Finset.sdiff_subset : ({a} : Finset ℤ) \ d ⊆ {a})

theorem WFcell_sdiff {e d : Finset ℤ} (h : WFcell e) : WFcell (e \ d) := by
  rcases h with h | h | h
  · subst h
    rcases sdiff_singleton_cases (a := -1) (d := d) with h0 | h0
    · have h0' : YES \ d = ∅ := h0
      rw [h0']
      exact Or.inr (Or.inr (fun x hx => absurd hx (Finset.not_mem_empty x)))
    · have h0' : YES \ d = YES := h0
      rw [h0']
      exact Or.inl rfl
  · subst h
    rcases sdiff_singleton_cases (a := -2) (d := d) with h0 | h0
    · have h0' : NO \ d = ∅ := h0
      rw [h0']
      exact Or.inr (Or.inr (fun x hx => absurd hx (Finset.not_mem_empty x)))
    · have h0' : NO \ d = NO := h0
      rw [h0']
      exact Or.inr (Or.inl rfl)
  · exact Or.inr (Or.inr (fun x hx => h x (Finset.mem_sdiff.mp hx).1))

theorem wf_mark_yes_any {n : ℕ} {s : Sheet} (hw : WF n s) (c : Card) {p : ℕ}
    (hp : p < n) : WF n (mark_yes s c p) := by
  refine ⟨shape_mark_yes hw.1 c p, ?_⟩
  intro c' p' hp'
  rw [cell_mark_yes hw.1 hp c c' p']
  split
  · split
    · exact Or.inl rfl
    · exact WFcell_sdiff (hw.2 c' p' hp')
  · exact hw.2 c' p' hp'

theorem ids_mark_yes {n : ℕ} {s : Sheet} (hw : WF n s) (c : Card) {p : ℕ}
    (hp : p < n) :
    ∀ (c' : Card) (p' : ℕ) (j : ℤ), Unk (cell (mark_yes s c p) c' p') →
      j ∈ cell (mark_yes s c p) c' p' →
      Unk (cell s c' p') ∧ j ∈ cell s c' p' := by
  intro c' p' j hu hj
  rw [cell_mark_yes hw.1 hp c c' p'] at hu hj
  by_cases hpp : p' = p
  · subst hpp
    rw [if_pos rfl] at hu hj
    by_cases hcc : c' = c
    · rw [if_pos hcc] at hu
      exact absurd hu unk_YES_false
    · rw [if_neg hcc] at hu hj
      obtain ⟨hjm, hjd⟩ := Finset.mem_sdiff.mp hj
      rcases hw.2 c' p' hp with hY | hN | hpos
      · rw [hY] at hu hj
        rcases sdiff_singleton_cases (a := -1) (d := cell s c p') with h0 | h0
        · have h0' : YES \ cell s c p' = ∅ := h0
          rw [h0'] at hj
          exact absurd hj (Finset.not_mem_empty j)
        · have h0' : YES \ cell s c p' = YES := h0
          rw [h0'] at hu
          exact absurd hu unk_YES_false
      · rw [hN] at hu hj
        rcases sdiff_singleton_cases (a := -2) (d := cell s c p') with h0 | h0
        · have h0' : NO \ cell s c p' = ∅ := h0
          rw [h0'] at hj
          exact absurd hj (Finset.not_mem_empty j)
        · have h0' : NO \ cell s c p' = NO := h0
          rw [h0'] at hu
          exact absurd hu unk_NO_false
      · exact ⟨pos_unk hpos, hjm⟩
  · rw [if_neg hpp] at hu hj
    exact ⟨hu, hj⟩

theorem cell_mark_yes_other {n : ℕ} {s : Sheet} (hsh : Shape n s) (c : Card)
    {p : ℕ} (hp : p < n) (c' : Card) {p' : ℕ} (hne : p' ≠ p) :
    cell (mark_yes s c p) c' p' = cell s c' p' := by
  rw [cell_mark_yes hsh hp c c' p', if_neg hne]

theorem insert_ne_NO {d : ℤ} (hd : 1 ≤ d) (x : Finset ℤ) : insert d x ≠ NO := by
  intro h
  have h3 : d ∈ NO := h ▸ Finset.mem_insert_self d x
  have h4 : d = -2 := by simpa [NO] using h3
  omega

theorem insert_ne_YES {d : ℤ} (hd : 1 ≤ d) (x : Finset ℤ) :
    insert d x ≠ YES := by
  intro h
  have h3 : d ∈ YES := h ▸ Finset.mem_insert_self d x
  have h4 : d = -1 := by simpa [YES] using h3
  omega

theorem newIdAux_ge (keys : Finset ℤ) :
    ∀ (fuel : ℕ) (i : ℤ), i ≤ newIdAux keys fuel i := by
  intro fuel
  induction fuel with
  | zero =>
    intro i
    exact le_refl i
  | succ fuel ih =>
    intro i
    show i ≤ if i ∈ keys then newIdAux keys fuel (i + 1) else i
    split
    · exact le_trans (by omega) (ih (i + 1))
    · exact le_refl i

theorem new_disproof_id_pos (s : Sheet) (p : ℕ) : 1 ≤ new_disproof_id s p :=
  newIdAux_ge _ _ 1

/-! ## Opening a claim group (`_mark_other_shown`) -/

theorem mos_foldl_shape {n : ℕ} (p : ℕ) (d : ℤ) :
    ∀ (l : List Card) (t : Sheet), Shape n t →
      Shape n (l.foldl (fun u c =>
        if cell u c p ≠ NO then setCell u c p (insert d (cell u c p)) else u)
        t) := by
  intro l
  induction l with
  | nil =>
    intro t h
    exact h
  | cons c0 cs ih =>
    intro t h
    rw [List.foldl_cons]
    split
    · exact ih _ (shape_setCell h c0 p _)
    · exact ih t h

theorem mos_foldl_char {n : ℕ} {p : ℕ} (hp : p < n) (d : ℤ) (hd : 1 ≤ d) :
    ∀ (l : List Card) (t : Sheet), Shape n t →
      ∀ (c : Card) (p' : ℕ),
        cell (l.foldl (fun u c =>
          if cell u c p ≠ NO then setCell u c p (insert d (cell u c p)) else u)
          t) c p' =
        if p' = p ∧ c ∈ l ∧ cell t c p ≠ NO then insert d (cell t c p)
        else cell t c p' := by
  intro l
  induction l with
  | nil =>
    intro t hsh c p'
    simp
  | cons c0 cs ih =>
    intro t hsh c p'
    rw [List.foldl_cons]
    by_cases h0 : cell t c0 p ≠ NO
    · rw [if_pos h0]
      have hsh1 : Shape n (setCell t c0 p (insert d (cell t c0 p))) :=
        shape_setCell hsh c0 p _
      rw [ih _ hsh1 c p']
      have hcell1 : ∀ (c2 : Card) (q : ℕ),
          cell (setCell t c0 p (insert d (cell t c0 p))) c2 q =
            if c2 = c0 ∧ q = p then insert d (cell t c0 p) else cell t c2 q :=
        fun c2 q => cell_setCell hsh hp c0 (insert d (cell t c0 p)) c2 q
      rw [hcell1 c p, hcell1 c p']
      by_cases hcc : c = c0
      · subst hcc
        rw [if_pos (show c = c ∧ p = p from ⟨rfl, rfl⟩)]
        by_cases hpp : p' = p
        · rw [if_pos (show p' = p ∧ c ∈ c :: cs ∧ cell t c p ≠ NO from
            ⟨hpp, List.mem_cons_self c cs, h0⟩)]
          by_cases hmem : c ∈ cs
          · rw [if_pos (show p' = p ∧ c ∈ cs ∧
                insert d (cell t c p) ≠ NO from
              ⟨hpp, hmem, insert_ne_NO hd _⟩)]
            exact Finset.insert_idem d _
          · rw [if_neg (show ¬(p' = p ∧ c ∈ cs ∧
                insert d (cell t c p) ≠ NO) from fun hand => hmem hand.2.1),
              if_pos (show c = c ∧ p' = p from ⟨rfl, hpp⟩)]
        · rw [if_neg (show ¬(p' = p ∧ c ∈ cs ∧
              insert d (cell t c p) ≠ NO) from fun hand => hpp hand.1),
            if_neg (show ¬(c = c ∧ p' = p) from fun hand => hpp hand.2),
            if_neg (show ¬(p' = p ∧ c ∈ c :: cs ∧ cell t c p ≠ NO) from
              fun hand => hpp hand.1)]
      · rw [if_neg (show ¬(c = c0 ∧ p = p) from fun hand => hcc hand.1),
          if_neg (show ¬(c = c0 ∧ p' = p) from fun hand => hcc hand.1)]
        simp only [List.mem_cons, hcc, false_or]
    · rw [if_neg h0]
      rw [ih t hsh c p']
      have hNO : cell t c0 p = NO := not_not.mp h0
      by_cases hcc : c = c0
      · subst hcc
        rw [if_neg (show ¬(p' = p ∧ c ∈ cs ∧ cell t c p ≠ NO) from
            fun hand => hand.2.2 hNO),
          if_neg (show ¬(p' = p ∧ c ∈ c :: cs ∧ cell t c p ≠ NO) from
            fun hand => hand.2.2 hNO)]
      · simp only [List.mem_cons, hcc, false_or]

theorem shape_mark_other_shown {n : ℕ} {s : Sheet} (hsh : Shape n s)
    (cards : List Card) (p : ℕ) : Shape n (mark_other_shown s cards p) := by
  unfold mark_other_shown
  split
  · exact hsh
  · exact mos_foldl_shape p (new_disproof_id s p) cards s hsh

theorem cell_mark_other_shown {n : ℕ} {s : Sheet} (hsh : Shape n s)
    (cards : List Card) {p : ℕ} (hp : p < n)
    (hna : alreadyShown s cards p = false) (c : Card) (p' : ℕ) :
    cell (mark_other_shown s cards p) c p' =
      if p' = p ∧ c ∈ cards ∧ cell s c p ≠ NO then
        insert (new_disproof_id s p) (cell s c p)
      else cell s c p' := by
  have hchar := mos_foldl_char hp (new_disproof_id s p)
    (new_disproof_id_pos s p) cards s hsh c p'
  have hunf : mark_other_shown s cards p =
      cards.foldl (fun u c =>
        if cell u c p ≠ NO then
          setCell u c p (insert (new_disproof_id s p) (cell u c p))
        else u) s := by
    unfold mark_other_shown
    rw [if_neg (show ¬(alreadyShown s cards p = true) from
      fun hh => by rw [hna] at hh; exact Bool.noConfusion hh)]
  rw [hunf, hchar]

theorem wf_mark_other_shown {n : ℕ} {s : Sheet} (hw : WF n s)
    (cards : List Card) {p : ℕ} (hp : p < n) :
    WF n (mark_other_shown s cards p) := by
  cases hna : alreadyShown s cards p with
  | true =>
    have heq : mark_other_shown s cards p = s := by
      unfold mark_other_shown
      rw [if_pos hna]
    rw [heq]
    exact hw
  | false =>
    refine ⟨shape_mark_other_shown hw.1 cards p, ?_⟩
    intro c p' hp'
    rw [cell_mark_other_shown hw.1 cards hp hna c p']
    split
    · rename_i hcond
      obtain ⟨hpp, hcc, hno⟩ := hcond
      refine Or.inr (Or.inr ?_)
      intro x hx
      rcases Finset.mem_insert.mp hx with rfl | hx
      · have := new_disproof_id_pos s p
        omega
      · rcases hw.2 c p hp with hY | hN | hpos
        · exfalso
          have hone : alreadyShown s cards p = true :=
            List.any_eq_true.mpr ⟨c, hcc, by simp [hY]⟩
          rw [hna] at hone
          exact Bool.noConfusion hone
        · exact absurd hN hno
        · exact hpos x hx
    · exact hw.2 c p' hp'

theorem no_mark_other_shown {n : ℕ} {s : Sheet} (hw : WF n s)
    (cards : List Card) {p : ℕ} (hp : p < n) (c : Card) (p' : ℕ)
    (hno : cell s c p' = NO) :
    cell (mark_other_shown s cards p) c p' = NO := by
  cases hna : alreadyShown s cards p with
  | true =>
    have heq : mark_other_shown s cards p = s := by
      unfold mark_other_shown
      rw [if_pos hna]
    rw [heq]
    exact hno
  | false =>
    rw [cell_mark_other_shown hw.1 cards hp hna c p']
    split
    · rename_i hcond
      exact absurd (hcond.1 ▸ hno) hcond.2.2
    · exact hno


theorem inner_fold_eq {players : List String} {name : String} {i : ℕ}
    (hidx : get_player_index players name = some i) :
    ∀ (cards : List Card) (t : Sheet),
      cards.foldlM (fun t' c =>
        match get_player_index players name with
        | some j => Except.ok (mark_no t' c j)
        | none => Except.error ("No player with name: " ++ name)) t
      = Except.ok (cards.foldl (fun u c => mark_no u c i) t) := by
  intro cards
  induction cards with
  | nil =>
    intro t
    rfl
  | cons c0 cs ih =>
    intro t
    have hstep : (fun (t' : Sheet) (c : Card) =>
        match get_player_index players name with
        | some j => Except.ok (mark_no t' c j)
        | none => Except.error ("No player with name: " ++ name)) t c0
        = Except.ok (mark_no t c0 i) := by
      show (match get_player_index players name with
        | some j => Except.ok (mark_no t c0 j)
        | none => Except.error ("No player with name: " ++ name))
        = Except.ok (mark_no t c0 i)
      rw [hidx]
    show ((fun (t' : Sheet) (c : Card) =>
        match get_player_index players name with
        | some j => Except.ok (mark_no t' c j)
        | none => Except.error ("No player with name: " ++ name)) t c0 >>=
      fun t2 => cs.foldlM (fun t' c =>
        match get_player_index players name with
        | some j => Except.ok (mark_no t' c j)
        | none => Except.error ("No player with name: " ++ name)) t2)
      = Except.ok ((c0 :: cs).foldl (fun u c => mark_no u c i) t)
    rw [hstep, List.foldl_cons]
    exact ih (mark_no t c0 i)

theorem inner_fold_none {players : List String} {name : String}
    (hidx : get_player_index players name = none) (c0 : Card)
    (cs : List Card) (t : Sheet) :
    (c0 :: cs).foldlM (fun t' c =>
      match get_player_index players name with
      | some j => Except.ok (mark_no t' c j)
      | none => Except.error ("No player with name: " ++ name)) t
    = Except.error ("No player with name: " ++ name) := by
  have hstep : (fun (t' : Sheet) (c : Card) =>
      match get_player_index players name with
      | some j => Except.ok (mark_no t' c j)
      | none => Except.error ("No player with name: " ++ name)) t c0
      = Except.error ("No player with name: " ++ name) := by
    show (match get_player_index players name with
      | some j => Except.ok (mark_no t c0 j)
      | none => Except.error ("No player with name: " ++ name))
      = Except.error ("No player with name: " ++ name)
    rw [hidx]
  show ((fun (t' : Sheet) (c : Card) =>
      match get_player_index players name with
      | some j => Except.ok (mark_no t' c j)
      | none => Except.error ("No player with name: " ++ name)) t c0 >>=
    fun t2 => cs.foldlM (fun t' c =>
      match get_player_index players name with
      | some j => Except.ok (mark_no t' c j)
      | none => Except.error ("No player with name: " ++ name)) t2)
    = Except.error ("No player with name: " ++ name)
  rw [hstep]
  rfl

theorem mark_no_fold_spec {n : ℕ} {i : ℕ} (hi : i < n) :
    ∀ (cards : List Card) (t : Sheet), WF n t →
      WF n (cards.foldl (fun u c => mark_no u c i) t) ∧
      (∀ (c : Card) (p : ℕ), cell t c p = NO →
        cell (cards.foldl (fun u c => mark_no u c i) t) c p = NO) ∧
      (∀ (c : Card) (p : ℕ) (j : ℤ),
        Unk (cell (cards.foldl (fun u c => mark_no u c i) t) c p) →
        j ∈ cell (cards.foldl (fun u c => mark_no u c i) t) c p →
        Unk (cell t c p) ∧ j ∈ cell t c p) ∧
      (∀ c ∈ cards, cell (cards.foldl (fun u c => mark_no u c i) t) c i = NO) ∧
      (∀ (c : Card) (p : ℕ), p ≠ i →
        cell (cards.foldl (fun u c => mark_no u c i) t) c p = cell t c p) := by
  intro cards
  induction cards with
  | nil =>
    intro t hw
    exact ⟨hw, fun c p h => h, fun c p j hu hj => ⟨hu, hj⟩,
      fun c hc => absurd hc (List.not_mem_nil c), fun c p _ => rfl⟩
  | cons c0 cs ih =>
    intro t hw
    rw [List.foldl_cons]
    have hw1 : WF n (mark_no t c0 i) := wf_mark_no_any hw c0 hi
    obtain ⟨ihwf, ihno, ihids, ihmk, ihcol⟩ := ih (mark_no t c0 i) hw1
    have hcellchar : ∀ (c' : Card) (p' : ℕ),
        cell (mark_no t c0 i) c' p' =
          if c' = c0 ∧ p' = i then NO else cell t c' p' :=
      fun c' p' => cell_mark_no hw.1 hi c0 c' p'
    refine ⟨ihwf, ?_, ?_, ?_, ?_⟩
    · intro c p h
      apply ihno
      rw [hcellchar c p]
      split
      · rfl
      · exact h
    · intro c p j hu hj
      obtain ⟨hu1, hj1⟩ := ihids c p j hu hj
      rw [hcellchar c p] at hu1 hj1
      by_cases hcc : c = c0 ∧ p = i
      · rw [if_pos hcc] at hu1
        exact absurd hu1 unk_NO_false
      · rw [if_neg hcc] at hu1 hj1
        exact ⟨hu1, hj1⟩
    · intro c hc
      rcases List.mem_cons.mp hc with rfl | hc
      · apply ihno
        rw [hcellchar c i, if_pos ⟨rfl, rfl⟩]
      · exact ihmk c hc
    · intro c p hp
      rw [ihcol c p hp, hcellchar c p,
        if_neg (show ¬(c = c0 ∧ p = i) from fun hand => hp hand.2)]

theorem markPassing_spec {players : List String} {cards : List Card} :
    ∀ (passing : List String) (s s' : Sheet),
      markPassing players cards passing s = .ok s' → WF players.length s →
      WF players.length s' ∧
      (∀ (c : Card) (p : ℕ), cell s c p = NO → cell s' c p = NO) ∧
      (∀ (c : Card) (p : ℕ) (j : ℤ), Unk (cell s' c p) → j ∈ cell s' c p →
        Unk (cell s c p) ∧ j ∈ cell s c p) ∧
      (∀ (name : String) (i : ℕ), name ∈ passing →
        get_player_index players name = some i →
        ∀ c ∈ cards, cell s' c i = NO) ∧
      (∀ p : ℕ, (∀ name ∈ passing, get_player_index players name ≠ some p) →
        ∀ c : Card, cell s' c p = cell s c p) := by
  intro passing
  induction passing with
  | nil =>
    intro s s' h hw
    have h2 : Except.ok s = Except.ok s' := h
    cases h2
    exact ⟨hw, fun c p h => h, fun c p j hu hj => ⟨hu, hj⟩,
      fun name i hmem => absurd hmem (List.not_mem_nil name),
      fun p _ c => rfl⟩
  | cons name0 rest ih =>
    intro s s' h hw
    have hcons : markPassing players cards (name0 :: rest) s =
        (cards.foldlM (fun t' c =>
          match get_player_index players name0 with
          | some j => Except.ok (mark_no t' c j)
          | none => Except.error ("No player with name: " ++ name0)) s) >>=
        fun t => markPassing players cards rest t := rfl
    rw [hcons] at h
    cases hlook : get_player_index players name0 with
    | none =>
      cases cards with
      | nil =>
        have h2 : markPassing players ([] : List Card) rest s = .ok s' := h
        obtain ⟨hwr, hnor, hidsr, hmkr, hcolr⟩ := ih s s' h2 hw
        refine ⟨hwr, hnor, hidsr, ?_, ?_⟩
        · intro name i hmem hname c hc
          exact absurd hc (List.not_mem_nil c)
        · intro p hnp c
          exact hcolr p (fun nm hnm => hnp nm (List.mem_cons_of_mem name0 hnm)) c
      | cons c0 cs =>
        rw [inner_fold_none hlook c0 cs s] at h
        exact Except.noConfusion h
    | some i =>
      have hlt : i < players.length := get_player_index_lt hlook
      rw [inner_fold_eq hlook cards s] at h
      have h2 : markPassing players cards rest
          (cards.foldl (fun u c => mark_no u c i) s) = .ok s' := h
      obtain ⟨hwf1, hno1, hids1, hmk1, hcol1⟩ := mark_no_fold_spec hlt cards s hw
      obtain ⟨hwr, hnor, hidsr, hmkr, hcolr⟩ := ih _ s' h2 hwf1
      refine ⟨hwr, ?_, ?_, ?_, ?_⟩
      · exact fun c p hno => hnor c p (hno1 c p hno)
      · intro c p j hu hj
        obtain ⟨hu1, hj1⟩ := hidsr c p j hu hj
        exact hids1 c p j hu1 hj1
      · intro name i2 hmem hname c hc
        rcases List.mem_cons.mp hmem with rfl | hmem2
        · rw [hlook] at hname
          cases hname
          exact hnor c i (hmk1 c hc)
        · exact hmkr name i2 hmem2 hname c hc
      · intro p hnp c
        have hne : p ≠ i := by
          intro hpe
          exact hnp name0 (List.mem_cons_self name0 rest)
            (by rw [hpe]; exact hlook)
        rw [hcolr p (fun nm hnm => hnp nm (List.mem_cons_of_mem name0 hnm)) c,
          hcol1 c p hne]

theorem wf_markShowing {players : List String} {self : String}
    {cards : List Card} {showing : Option String} {shown : Option Card}
    {s s' : Sheet}
    (h : markShowing players self cards showing shown s = .ok s')
    (hw : WF players.length s) : WF players.length s' := by
  cases showing with
  | none =>
    have h2 : Except.ok s = Except.ok s' := h
    cases h2
    exact hw
  | some nm =>
    cases shown with
    | none =>
      have h2 : (match get_player_index players nm with
        | some i => Except.ok (mark_other_shown s cards i)
        | none =>
          (Except.error ("No player with name: " ++ nm) :
            Except String Sheet)) = .ok s' := h
      cases hlook : get_player_index players nm with
      | none =>
        rw [hlook] at h2
        exact Except.noConfusion h2
      | some i =>
        rw [hlook] at h2
        have h3 : mark_other_shown s cards i = s' := Except.ok.inj h2
        rw [← h3]
        exact wf_mark_other_shown hw cards (get_player_index_lt hlook)
    | some ca =>
      have h2 : (if nm = self then Except.ok s
          else match get_player_index players nm with
            | some i => Except.ok (mark_player_shown s ca i)
            | none =>
              (Except.error ("No player with name: " ++ nm) :
                Except String Sheet)) = .ok s' := h
      by_cases hself : nm = self
      · rw [if_pos hself] at h2
        have h3 : s = s' := Except.ok.inj h2
        rw [← h3]
        exact hw
      · rw [if_neg hself] at h2
        cases hlook : get_player_index players nm with
        | none =>
          rw [hlook] at h2
          exact Except.noConfusion h2
        | some i =>
          rw [hlook] at h2
          have h3 : mark_player_shown s ca i = s' := Except.ok.inj h2
          rw [← h3]
          exact wf_mark_yes_any hw ca (get_player_index_lt hlook)

theorem update_ok_elim {L : Ledger} {cards : List Card}
    {passing : List String} {showing : Option String} {shown : Option Card}
    {L' : Ledger}
    (h : update L cards passing showing shown = .ok L') :
    ∃ s1 s2, markPassing L.allPlayers cards passing L.sheet = .ok s1 ∧
      markShowing L.allPlayers L.player cards showing shown s1 = .ok s2 ∧
      L' = { L with
        sheet := simplify L.allPlayers.length L.handSizes s2 } := by
  unfold update at h
  cases h1 : markPassing L.allPlayers cards passing L.sheet with
  | error e =>
    rw [h1] at h
    exact Except.noConfusion h
  | ok s1 =>
    rw [h1] at h
    have h' : (markShowing L.allPlayers L.player cards showing shown s1 >>=
        fun s2 => Except.ok { L with
          sheet := simplify L.allPlayers.length L.handSizes s2 }) =
        .ok L' := h
    cases h2 : markShowing L.allPlayers L.player cards showing shown s1 with
    | error e =>
      rw [h2] at h'
      exact Except.noConfusion h'
    | ok s2 =>
      rw [h2] at h'
      have h'' : Except.ok { L with
          sheet := simplify L.allPlayers.length L.handSizes s2 } =
          Except.ok L' := h'
      exact ⟨s1, s2, rfl, h2, (Except.ok.inj h'').symm⟩

theorem update_eq {L : Ledger} {cards : List Card} {passing : List String}
    {showing : Option String} {shown : Option Card} {s1 s2 : Sheet}
    (h1 : markPassing L.allPlayers cards passing L.sheet = .ok s1)
    (h2 : markShowing L.allPlayers L.player cards showing shown s1 = .ok s2) :
    update L cards passing showing shown =
      .ok { L with
        sheet := simplify L.allPlayers.length L.handSizes s2 } := by
  have e1 : update L cards passing showing shown =
      (markShowing L.allPlayers L.player cards showing shown s1 >>=
        fun t => Except.ok { L with
          sheet := simplify L.allPlayers.length L.handSizes t }) := by
    unfold update
    rw [h1]
    rfl
  rw [e1, h2]
  rfl

theorem openIds_subset_of_ids {s s' : Sheet}
    (hids : ∀ (c : Card) (p : ℕ) (j : ℤ), Unk (cell s' c p) →
      j ∈ cell s' c p → Unk (cell s c p) ∧ j ∈ cell s c p) (p : ℕ) :
    openIds s' p ⊆ openIds s p := by
  intro j hj
  unfold openIds at hj ⊢
  rcases Finset.mem_biUnion.mp hj with ⟨c, _, hc⟩
  by_cases hu : cell s' c p ≠ YES ∧ cell s' c p ≠ NO
  · rw [if_pos hu] at hc
    obtain ⟨hu0, hm0⟩ := hids c p j hu hc
    exact Finset.mem_biUnion.mpr ⟨c, Finset.mem_univ c,
      by rw [if_pos (show cell s c p ≠ YES ∧ cell s c p ≠ NO from hu0)]
         exact hm0⟩
  · rw [if_neg hu] at hc
    exact absurd hc (Finset.not_mem_empty j)


/-! ## Candidate scans (`_find_possible_cards`) -/

theorem findPossibleAux_spec (n : ℕ) (s : Sheet) :
    ∀ (l acc : List Card),
      findPossibleAux n s acc l =
        match l.find? (fun c => is_solution n s c) with
        | some c => [c]
        | none => acc ++ l.filter (fun c => is_possible n s c) := by
  intro l
  induction l with
  | nil =>
    intro acc
    show acc = acc ++ List.filter (fun c => is_possible n s c) []
    rw [List.filter_nil, List.append_nil]
  | cons c rest ih =>
    intro acc
    show (if is_solution n s c = true then [c]
        else if is_possible n s c = true then
          findPossibleAux n s (acc ++ [c]) rest
        else findPossibleAux n s acc rest) =
      match (c :: rest).find? (fun c2 => is_solution n s c2) with
      | some c2 => [c2]
      | none => acc ++ (c :: rest).filter (fun c2 => is_possible n s c2)
    by_cases hsol : is_solution n s c = true
    · rw [if_pos hsol, List.find?_cons_of_pos _ hsol]
    · rw [if_neg hsol, List.find?_cons_of_neg _ (by simpa using hsol)]
      by_cases hposs : is_possible n s c = true
      · rw [if_pos hposs, ih (acc ++ [c])]
        cases hrest : rest.find? (fun c2 => is_solution n s c2) with
        | some c2 => rfl
        | none => simp [List.filter_cons, hposs, List.append_assoc]
      · rw [if_neg hposs, ih acc]
        cases hrest : rest.find? (fun c2 => is_solution n s c2) with
        | some c2 => rfl
        | none => simp [List.filter_cons, hposs]

theorem find_possible_eq_spec (n : ℕ) (s : Sheet) (cards : List Card) :
    find_possible_cards n s cards = specCandidates n s cards := by
  unfold find_possible_cards specCandidates
  rw [findPossibleAux_spec]
  cases h : cards.find? (fun c => is_solution n s c) with
  | some c => rfl
  | none => simp

theorem match3_eq_some {A B C : List Card} {t : Card × Card × Card} :
    (match A, B, C with
     | [a], [b], [c] => some (a, b, c)
     | _, _, _ => none) = some t ↔
      A = [t.1] ∧ B = [t.2.1] ∧ C = [t.2.2] := by
  rcases A with _ | ⟨a, _ | ⟨a2, ta⟩⟩ <;>
    rcases B with _ | ⟨b, _ | ⟨b2, tb⟩⟩ <;>
    rcases C with _ | ⟨c, _ | ⟨c2, tc⟩⟩ <;>
    simp [Prod.ext_iff]

/-! ## Allocation of fresh claim-group ids -/

theorem newIdAux_spec (keys : Finset ℤ) :
    ∀ (fuel : ℕ) (i : ℤ), (∃ k : ℕ, k < fuel ∧ (i + k) ∉ keys) →
      newIdAux keys fuel i ∉ keys ∧ i ≤ newIdAux keys fuel i ∧
      ∀ j : ℤ, i ≤ j → j < newIdAux keys fuel i → j ∈ keys := by
  intro fuel
  induction fuel with
  | zero =>
    intro i h
    obtain ⟨k, hk, _⟩ := h
    exact absurd hk (by omega)
  | succ fuel ih =>
    intro i h
    have hred : newIdAux keys (fuel + 1) i =
        if i ∈ keys then newIdAux keys fuel (i + 1) else i := rfl
    rw [hred]
    by_cases hmem : i ∈ keys
    · rw [if_pos hmem]
      obtain ⟨k, hk, hknot⟩ := h
      have hk0 : k ≠ 0 := by
        intro h0
        rw [h0] at hknot
        exact hknot (by simpa using hmem)
      obtain ⟨ih1, ih2, ih3⟩ := ih (i + 1) ⟨k - 1, by omega, by
        have hcast : (i + 1) + ((k - 1 : ℕ) : ℤ) = i + k := by
          omega
        rw [hcast]
        exact hknot⟩
      refine ⟨ih1, by omega, ?_⟩
      intro j hij hjlt
      by_cases hji : j = i
      · rw [hji]
        exact hmem
      · exact ih3 j (by omega) hjlt
    · rw [if_neg hmem]
      exact ⟨hmem, le_refl i, fun j hij hjlt => absurd hij (by omega)⟩

theorem newIdAux_exists (keys : Finset ℤ) :
    ∃ k : ℕ, k < keys.card + 1 ∧ ((1 : ℤ) + (k : ℤ)) ∉ keys := by
  by_contra hcon
  push_neg at hcon
  have hsub : (Finset.range (keys.card + 1)).image
      (fun k : ℕ => (1 : ℤ) + (k : ℤ)) ⊆ keys := by
    intro x hx
    rcases Finset.mem_image.mp hx with ⟨k, hk, rfl⟩
    exact hcon k (Finset.mem_range.mp hk)
  have hinj : Function.Injective (fun k : ℕ => (1 : ℤ) + (k : ℤ)) := by
    intro a b hab
    simp only at hab
    omega
  have hcard : ((Finset.range (keys.card + 1)).image
      (fun k : ℕ => (1 : ℤ) + (k : ℤ))).card = keys.card + 1 := by
    rw [Finset.card_image_of_injective _ hinj, Finset.card_range]
  have := Finset.card_le_card hsub
  omega

theorem new_disproof_id_spec (s : Sheet) (p : ℕ) :
    new_disproof_id s p ∉ openIds s p ∧ 1 ≤ new_disproof_id s p ∧
      ∀ j : ℤ, 1 ≤ j → j < new_disproof_id s p → j ∈ openIds s p := by
  obtain ⟨k, hk, hknot⟩ := newIdAux_exists (openIds s p)
  exact newIdAux_spec (openIds s p) ((openIds s p).card + 1) 1 ⟨k, hk, hknot⟩

theorem mem_openIds {s : Sheet} {c : Card} {p : ℕ} {j : ℤ}
    (hu : Unk (cell s c p)) (hj : j ∈ cell s c p) : j ∈ openIds s p :=
  Finset.mem_biUnion.mpr ⟨c, Finset.mem_univ c, by
    rw [if_pos (show cell s c p ≠ YES ∧ cell s c p ≠ NO from hu)]
    exact hj⟩

theorem mark_other_shown_attaches {n : ℕ} {s : Sheet} (hw : WF n s)
    (cards : List Card) {p : ℕ} (hp : p < n)
    (hna : alreadyShown s cards p = false) (c : Card) :
    new_disproof_id s p ∈ cell (mark_other_shown s cards p) c p ↔
      (c ∈ cards ∧ cell s c p ≠ NO) := by
  rw [cell_mark_other_shown hw.1 cards hp hna c p]
  obtain ⟨hnotin, hpos, _⟩ := new_disproof_id_spec s p
  constructor
  · intro hmem
    by_cases hcond : p = p ∧ c ∈ cards ∧ cell s c p ≠ NO
    · exact hcond.2
    · rw [if_neg hcond] at hmem
      exfalso
      rcases hw.2 c p hp with hY | hN | hpos2
      · rw [hY] at hmem
        have : new_disproof_id s p = -1 := by simpa [YES] using hmem
        omega
      · rw [hN] at hmem
        have : new_disproof_id s p = -2 := by simpa [NO] using hmem
        omega
      · exact hnotin (mem_openIds (pos_unk hpos2) hmem)
  · intro hcond
    rw [if_pos (show p = p ∧ c ∈ cards ∧ cell s c p ≠ NO from
      ⟨rfl, hcond.1, hcond.2⟩)]
    exact Finset.mem_insert_self _ _


/-! ## The initial sheet -/

theorem cell_map_init (own : List Card) (len idx : ℕ) (c : Card) (p : ℕ)
    (hp : p < len) :
    cell (cardList.map fun c =>
      if c ∈ own then
        (List.range len).map fun q => if q = idx then YES else NO
      else
        (List.range len).map fun q => if q = idx then NO else ∅) c p =
    if c ∈ own then (if p = idx then YES else NO)
    else (if p = idx then NO else ∅) := by
  unfold cell
  have h1 : (cardList.map (fun c =>
      if c ∈ own then
        (List.range len).map fun q => if q = idx then YES else NO
      else
        (List.range len).map fun q => if q = idx then NO else ∅)).getD
      c.val [] =
      (if c ∈ own then
        (List.range len).map fun q => if q = idx then YES else NO
      else
        (List.range len).map fun q => if q = idx then NO else ∅) := by
    rw [List.getD_eq_getElem?_getD, List.getElem?_map]
    have h2 : cardList[c.val]? = some c := by
      rw [List.getElem?_eq_getElem (by simp [cardList])]
      congr 1
      apply Fin.ext
      simp [cardList, List.getElem_finRange]
    rw [h2]
    rfl
  rw [h1]
  split
  · rw [List.getD_eq_getElem?_getD, List.getElem?_map, List.getElem?_range hp]
    rfl
  · rw [List.getD_eq_getElem?_getD, List.getElem?_map, List.getElem?_range hp]
    rfl

/-! ## The ten claims -/

/-- C1: `solve()` returns a triple exactly when, for each of the three
categories, the candidate set — the confirmed solution card alone if the
category has one, otherwise all cards of the category with `is_possible`
true — has size exactly one; in that case the triple is those three cards
in category order, and otherwise `solve()` returns `none`. -/
theorem solve_characterization (n : ℕ) (s : Sheet) (t : Card × Card × Card) :
    solve n s = some t ↔
      specCandidates n s SUSPECTS = [t.1] ∧
      specCandidates n s WEAPONS = [t.2.1] ∧
      specCandidates n s ROOMS = [t.2.2] := by
  unfold solve
  rw [find_possible_eq_spec, find_possible_eq_spec, find_possible_eq_spec]
  exact match3_eq_some

/-- C2: after an `update`'s rule-engine pass, every participant whose hand
is already guaranteed filled by pending claims — every combination of one
candidate card per open claim group has at least `hand − #YES` distinct
cards — has no still-unknown cell with an empty claim-group set left in
their column: rule 7 has set them all to `NO`. -/
theorem sufficient_closes_hand
    (L : Ledger) (cards : List Card) (passing : List String)
    (showing : Option String) (shown : Option Card) (L' : Ledger)
    (hw : WF L.allPlayers.length L.sheet)
    (h : update L cards passing showing shown = .ok L') :
    ∀ p < L'.allPlayers.length,
      has_sufficient_shown_cards L'.handSizes L'.sheet p = true →
      ∀ c : Card, cell L'.sheet c p ≠ (∅ : Finset ℤ) := by
  obtain ⟨s1, s2, h1, h2, hL'⟩ := update_ok_elim h
  have hw1 := (markPassing_spec passing L.sheet s1 h1 hw).1
  have hw2 := wf_markShowing h2 hw1
  obtain ⟨hfix, hwf, _⟩ := @simplify_fixed L.allPlayers.length L.handSizes s2 hw2
  obtain ⟨_, hr7⟩ := runPass_false_parts hwf hfix
  subst hL'
  exact r7_false_char hwf hr7

theorem sufficient_closes_hand_witness :
    cell c2L2.sheet 2 1 ≠ (∅ : Finset ℤ) :=
  sufficient_closes_hand c2L1 [1, 7, 13] [] (some "B") none c2L2
    (by decide) (by decide) 1 (by decide) (by decide) 2

/-- C3 (counterexample): a `YES` cell does not keep its state under further
`update` calls.  In the reachable state `c3L2`, the cell for card 2 and
participant `B` is `YES`; a further (error-free) update in which `B` shows
card 1 again erases it to the empty set. -/
theorem yes_cell_reverts :
    cell c3L2.sheet 2 1 = YES ∧
    (update c3L2 [1, 6, 12] [] (some "B") (some 1)).isOk = true ∧
    cell c3L3.sheet 2 1 = (∅ : Finset ℤ) :=
  ⟨by decide, by decide, by decide⟩

/-- C3 (amended): a `NO` cell keeps its state under every further `update`
call that does not name its participant as the shower of a known card;
`YES` cells enjoy no such guarantee (see the counterexample). -/
theorem no_cells_persist
    (L : Ledger) (cards : List Card) (passing : List String)
    (showing : Option String) (shown : Option Card) (L' : Ledger)
    (c : Card) (p : ℕ)
    (hw : WF L.allPlayers.length L.sheet)
    (h : update L cards passing showing shown = .ok L')
    (hnr : ∀ nm, showing = some nm → shown.isSome = true →
      get_player_index L.allPlayers nm ≠ some p)
    (hno : cell L.sheet c p = NO) :
    cell L'.sheet c p = NO := by
  obtain ⟨s1, s2, h1, h2, hL'⟩ := update_ok_elim h
  obtain ⟨hw1, hno1, _, _, _⟩ := markPassing_spec passing L.sheet s1 h1 hw
  have hnoS1 : cell s1 c p = NO := hno1 c p hno
  have hw2 : WF L.allPlayers.length s2 := wf_markShowing h2 hw1
  have hnoS2 : cell s2 c p = NO := by
    cases showing with
    | none =>
      have h2' : Except.ok s1 = Except.ok s2 := h2
      rw [← Except.ok.inj h2']
      exact hnoS1
    | some nm =>
      cases shown with
      | none =>
        have h2' : (match get_player_index L.allPlayers nm with
          | some i => Except.ok (mark_other_shown s1 cards i)
          | none => (Except.error ("No player with name: " ++ nm) :
              Except String Sheet)) = .ok s2 := h2
        cases hlook : get_player_index L.allPlayers nm with
        | none =>
          rw [hlook] at h2'
          exact Except.noConfusion h2'
        | some i =>
          rw [hlook] at h2'
          rw [← Except.ok.inj h2']
          exact no_mark_other_shown hw1 cards (get_player_index_lt hlook)
            c p hnoS1
      | some ca =>
        have h2' : (if nm = L.player then Except.ok s1
          else match get_player_index L.allPlayers nm with
            | some i => Except.ok (mark_player_shown s1 ca i)
            | none => (Except.error ("No player with name: " ++ nm) :
                Except String Sheet)) = .ok s2 := h2
        by_cases hself : nm = L.player
        · rw [if_pos hself] at h2'
          rw [← Except.ok.inj h2']
          exact hnoS1
        · rw [if_neg hself] at h2'
          cases hlook : get_player_index L.allPlayers nm with
          | none =>
            rw [hlook] at h2'
            exact Except.noConfusion h2'
          | some i =>
            rw [hlook] at h2'
            rw [← Except.ok.inj h2']
            have hip : i ≠ p := fun hip => hnr nm rfl rfl (hip ▸ hlook)
            rw [show mark_player_shown s1 ca i = mark_yes s1 ca i from rfl,
              cell_mark_yes_other hw1.1 ca (get_player_index_lt hlook) c
                (show p ≠ i from fun hpe => hip hpe.symm)]
            exact hnoS1
  obtain ⟨_, _, hreach⟩ := @simplify_fixed L.allPlayers.length L.handSizes s2 hw2
  subst hL'
  show cell (simplify L.allPlayers.length L.handSizes s2) c p = NO
  rcases hreach with he | htr
  · rw [he]
    exact hnoS2
  · exact htr.1.2.2.1 c p hnoS2

theorem no_cells_persist_witness :
    cell c3wL1.sheet 5 0 = NO :=
  no_cells_persist c3wL0 [1, 6, 12] [] (some "B") (some 1) c3wL1 5 0
    (by decide) (by decide)
    (fun nm hnm _ => by
      cases hnm
      decide)
    (by decide)

/-- C4 (counterexample): marking `NO` a cell that is already `YES` is not
reported as an error.  After `B` reveals card 1 (its cell is `YES`), an
update in which `B` passes on a suggestion containing card 1 succeeds and
silently flips the cell to `NO`. -/
theorem conflicting_pass_not_error :
    cell c4L1.sheet 1 1 = YES ∧
    (update c4L1 [1, 6, 12] ["B"] none none).isOk = true ∧
    cell c4L2.sheet 1 1 = NO :=
  ⟨by decide, by decide, by decide⟩

/-- C4 (amended): none of the conflicting observations is reported: the
passing phase marks every suggested card `NO` for every passing participant
unconditionally, whatever the cell's previous state, and the update
succeeds. -/
theorem pass_overwrites_silently
    (L : Ledger) (cards : List Card) (passing : List String)
    (name : String) (q : ℕ) (c : Card) (L' : Ledger)
    (hw : WF L.allPlayers.length L.sheet)
    (h : update L cards passing none none = .ok L')
    (hmem : name ∈ passing)
    (hq : get_player_index L.allPlayers name = some q)
    (hc : c ∈ cards) :
    cell L'.sheet c q = NO := by
  obtain ⟨s1, s2, h1, h2, hL'⟩ := update_ok_elim h
  obtain ⟨hw1, _, _, hmk1, _⟩ := markPassing_spec passing L.sheet s1 h1 hw
  have hno1 : cell s1 c q = NO := hmk1 name q hmem hq c hc
  have h2' : Except.ok s1 = Except.ok s2 := h2
  have hs12 : s1 = s2 := Except.ok.inj h2'
  have hw2 : WF L.allPlayers.length s2 := hs12 ▸ hw1
  obtain ⟨_, _, hreach⟩ := @simplify_fixed L.allPlayers.length L.handSizes s2 hw2
  subst hL'
  show cell (simplify L.allPlayers.length L.handSizes s2) c q = NO
  rcases hreach with he | htr
  · rw [he, ← hs12]
    exact hno1
  · exact htr.1.2.2.1 c q (hs12 ▸ hno1)

theorem pass_overwrites_silently_witness :
    cell c4L2.sheet 1 1 = NO :=
  pass_overwrites_silently c4L1 [1, 6, 12] ["B"] "B" 1 1 c4L2
    (by decide) (by decide) (by decide) (by decide) (by decide)

/-- C5 (counterexample): when the reported shower is the observer itself,
the direct reveal is silently skipped: the shown card's cell for the
shower stays `NO` instead of becoming `YES`. -/
theorem observer_reveal_noop :
    cell c5L0.sheet 6 0 = NO ∧
    (update c5L0 [5, 6, 12] [] (some "A") (some 6)).isOk = true ∧
    cell c5L1.sheet 6 0 ≠ YES :=
  ⟨by decide, by decide, by decide⟩

/-- C5 (amended): when `showing` is present, `shown` is known, and the
shower is a roster member other than the observer, `update` marks the
shown card `YES` for the shower (provided no cell of that participant's
column carries two claim ids) and opens no claim group: every open id
after the update was already open before. -/
theorem direct_reveal_marks_yes
    (L : Ledger) (cards : List Card) (passing : List String)
    (nm : String) (shownc : Card) (L' : Ledger) (q : ℕ)
    (hw : WF L.allPlayers.length L.sheet)
    (hq : get_player_index L.allPlayers nm = some q)
    (hne : nm ≠ L.player)
    (hcol : Hcol L.sheet q)
    (h : update L cards passing (some nm) (some shownc) = .ok L') :
    cell L'.sheet shownc q = YES ∧
      ∀ p : ℕ, openIds L'.sheet p ⊆ openIds L.sheet p := by
  obtain ⟨s1, s2, h1, h2, hL'⟩ := update_ok_elim h
  obtain ⟨hw1, hno1, hids1, _, _⟩ := markPassing_spec passing L.sheet s1 h1 hw
  have hq2 : q < L.allPlayers.length := get_player_index_lt hq
  have h2' : (if nm = L.player then Except.ok s1
      else match get_player_index L.allPlayers nm with
        | some i => Except.ok (mark_player_shown s1 shownc i)
        | none => (Except.error ("No player with name: " ++ nm) :
            Except String Sheet)) = .ok s2 := h2
  rw [if_neg hne, hq] at h2'
  have hs2 : mark_yes s1 shownc q = s2 := Except.ok.inj h2'
  have hw2 : WF L.allPlayers.length s2 := by
    rw [← hs2]
    exact wf_mark_yes_any hw1 shownc hq2
  have hids2 : ∀ (c : Card) (p : ℕ) (j : ℤ), Unk (cell s2 c p) →
      j ∈ cell s2 c p → Unk (cell s1 c p) ∧ j ∈ cell s1 c p := by
    rw [← hs2]
    exact ids_mark_yes hw1 shownc hq2
  have hyes2 : cell s2 shownc q = YES := by
    rw [← hs2, cell_mark_yes hw1.1 hq2 shownc shownc q, if_pos rfl, if_pos rfl]
  have hcol2 : Hcol s2 q := hcol_of_ids hids2 (hcol_of_ids hids1 hcol)
  obtain ⟨_, _, hreach⟩ := @simplify_fixed L.allPlayers.length L.handSizes s2 hw2
  have hidsu : ∀ (c : Card) (p : ℕ) (j : ℤ),
      Unk (cell (simplify L.allPlayers.length L.handSizes s2) c p) →
      j ∈ cell (simplify L.allPlayers.length L.handSizes s2) c p →
      Unk (cell s2 c p) ∧ j ∈ cell s2 c p := by
    rcases hreach with he | htr
    · rw [he]
      exact fun c p j hu hj => ⟨hu, hj⟩
    · exact htr.1.2.2.2.1
  have hyesu : cell (simplify L.allPlayers.length L.handSizes s2) shownc q =
      YES := by
    rcases hreach with he | htr
    · rw [he]
      exact hyes2
    · exact htr.1.2.2.2.2 q hcol2 shownc hyes2
  subst hL'
  refine ⟨hyesu, ?_⟩
  intro p
  exact subset_trans (openIds_subset_of_ids hidsu p)
    (subset_trans (openIds_subset_of_ids hids2 p) (openIds_subset_of_ids hids1 p))

theorem direct_reveal_marks_yes_witness :
    cell c5wL1.sheet 1 1 = YES :=
  (direct_reveal_marks_yes c5L0 [1, 6, 12] [] "B" 1 c5wL1 1
    (by decide) (by decide) (by decide) (by decide) (by decide)).1

/-- C6 (counterexample): two different participants can both hold `YES`
for the same card after an update: in the reachable state `c6L3`
participant `C` already has `YES` for card 1, and `B` directly revealing
card 1 gives `B` a second `YES` in that row. -/
theorem two_yes_in_row :
    (update c6L3 [1, 7, 13] [] (some "B") (some 1)).isOk = true ∧
    cell c6L4.sheet 1 1 = YES ∧ cell c6L4.sheet 1 2 = YES :=
  ⟨by decide, by decide, by decide⟩

/-- C6 (amended): after every `update`, a card row that contains a `YES`
has every cell settled to `YES` or `NO` — rule 1 eliminates unknowns from
such rows — but two `YES` cells in one row remain possible (see the
counterexample). -/
theorem yes_row_settled
    (L : Ledger) (cards : List Card) (passing : List String)
    (showing : Option String) (shown : Option Card) (L' : Ledger)
    (hw : WF L.allPlayers.length L.sheet)
    (h : update L cards passing showing shown = .ok L') :
    ∀ c : Card, (∃ p < L'.allPlayers.length, cell L'.sheet c p = YES) →
      ∀ p < L'.allPlayers.length,
        cell L'.sheet c p = YES ∨ cell L'.sheet c p = NO := by
  obtain ⟨s1, s2, h1, h2, hL'⟩ := update_ok_elim h
  have hw1 := (markPassing_spec passing L.sheet s1 h1 hw).1
  have hw2 := wf_markShowing h2 hw1
  obtain ⟨hfix, hwf, _⟩ := @simplify_fixed L.allPlayers.length L.handSizes s2 hw2
  obtain ⟨hr1, _⟩ := runPass_false_parts hwf hfix
  subst hL'
  exact r1_false_char hwf hr1

theorem yes_row_settled_witness :
    cell c6L4.sheet 1 0 = YES ∨ cell c6L4.sheet 1 0 = NO :=
  yes_row_settled c6L3 [1, 7, 13] [] (some "B") (some 1) c6L4
    (by decide) (by decide) 1 ⟨1, by decide, by decide⟩ 0 (by decide)

/-- C7: whenever `update` opens a claim group for a showing participant
(shower known, shown card unknown, group not already satisfied), the
allocated id is the smallest positive integer not currently open for that
participant, and it is attached to exactly those suggested cards whose
cell for that participant is not already `NO`; other columns are
untouched. -/
theorem open_group_spec
    (L : Ledger) (cards : List Card) (passing : List String) (nm : String)
    (s1 : Sheet) (q : ℕ)
    (hw : WF L.allPlayers.length L.sheet)
    (h1 : markPassing L.allPlayers cards passing L.sheet = .ok s1)
    (hq : get_player_index L.allPlayers nm = some q)
    (hns : alreadyShown s1 cards q = false) :
    update L cards passing (some nm) none =
      .ok { L with sheet := (simplify L.allPlayers.length L.handSizes (mark_other_shown s1 cards q)) } ∧
    (new_disproof_id s1 q ∉ openIds s1 q ∧ 1 ≤ new_disproof_id s1 q ∧
      ∀ j : ℤ, 1 ≤ j → j < new_disproof_id s1 q → j ∈ openIds s1 q) ∧
    (∀ c : Card,
      new_disproof_id s1 q ∈ cell (mark_other_shown s1 cards q) c q ↔
        (c ∈ cards ∧ cell s1 c q ≠ NO)) ∧
    (∀ (c : Card) (p' : ℕ), p' ≠ q →
      cell (mark_other_shown s1 cards q) c p' = cell s1 c p') := by
  have hw1 := (markPassing_spec passing L.sheet s1 h1 hw).1
  have hq2 : q < L.allPlayers.length := get_player_index_lt hq
  refine ⟨?_, new_disproof_id_spec s1 q, ?_, ?_⟩
  · apply update_eq h1
    show (match get_player_index L.allPlayers nm with
      | some i => Except.ok (mark_other_shown s1 cards i)
      | none => (Except.error ("No player with name: " ++ nm) :
          Except String Sheet)) =
      Except.ok (mark_other_shown s1 cards q)
    rw [hq]
  · exact fun c => mark_other_shown_attaches hw1 cards hq2 hns c
  · intro c p' hne
    rw [cell_mark_other_shown hw1.1 cards hq2 hns c p',
      if_neg (show ¬(p' = q ∧ c ∈ cards ∧ cell s1 c q ≠ NO) from
        fun hand => hne hand.1)]

theorem open_group_spec_witness :
    new_disproof_id c7L.sheet 1 ∈
      cell (mark_other_shown c7L.sheet [1, 6, 12] 1) 6 1 :=
  ((open_group_spec c7L [1, 6, 12] [] "B" c7L.sheet 1
      (by decide) rfl (by decide) (by decide)).2.2.1 6).mpr
    ⟨by decide, by decide⟩

/-- C8: the rule-engine loop terminates: for every well-formed sheet the
iterated passes reach, after finitely many steps, a sheet on which a full
pass changes nothing and reports no change, so the loop exits. -/
theorem rule_engine_terminates (n : ℕ) (hs : List ℕ) (s : Sheet)
    (hw : WF n s) :
    runPass n hs (simplify n hs s) = (simplify n hs s, false) :=
  (simplify_fixed hw).1

theorem rule_engine_terminates_witness :
    runPass 2 [1, 3] (simplify 2 [1, 3] c8L.sheet) =
      (simplify 2 [1, 3] c8L.sheet, false) :=
  rule_engine_terminates 2 [1, 3] c8L.sheet (by decide)

/-- C9 (counterexample): construction does not validate the hand-size sum:
a configuration whose hand sizes plus the three categories do not add up
to the 21 cards is accepted without error. -/
theorem init_accepts_bad_sum :
    (init ["A", "B"] [0, 20] "A" []).isOk = true ∧
      ([0, 20] : List ℕ).sum + 3 ≠ cardList.length :=
  ⟨by decide, by decide⟩

/-- C9 (amended): construction fails exactly when the roster and hand-size
lists disagree in length, the observer is not on the roster, or the
observer's declared hand size differs from their number of own cards; the
hand-size sum is never checked. -/
theorem init_ok_characterization (allPlayers : List String)
    (handSizes : List ℕ) (player : String) (ownCards : List Card) :
    (init allPlayers handSizes player ownCards).toOption.isSome = true ↔
      (allPlayers.length = handSizes.length ∧
        ∃ i, get_player_index allPlayers player = some i ∧
          handSizes.getD i 0 = ownCards.length) := by
  constructor
  · intro h
    cases hini : init allPlayers handSizes player ownCards with
    | error e =>
      rw [hini] at h
      exact Bool.noConfusion h
    | ok L =>
      unfold init at hini
      split at hini
      · rename_i hlen
        cases hidx : get_player_index allPlayers player with
        | none =>
          rw [hidx] at hini
          exact Except.noConfusion hini
        | some idx =>
          rw [hidx] at hini
          by_cases hhand : handSizes.getD idx 0 = ownCards.length
          · exact ⟨hlen, idx, rfl, hhand⟩
          · have hini2 : (if handSizes.getD idx 0 = ownCards.length then
                Except.ok (initLedger allPlayers handSizes player ownCards idx)
              else
                Except.error "assert: hand size does not match own cards") =
                Except.ok L := hini
            rw [if_neg hhand] at hini2
            exact Except.noConfusion hini2
      · exact Except.noConfusion hini
  · rintro ⟨hlen, i, hi, hh⟩
    unfold init
    rw [if_pos hlen, hi]
    show (if handSizes.getD i 0 = ownCards.length then
        Except.ok (initLedger allPlayers handSizes player ownCards i)
      else
        Except.error "assert: hand size does not match own cards").toOption.isSome
      = true
    rw [if_pos hh]
    rfl

/-- C10: immediately after construction, for every card not among the
observer's own cards, the observer's cell is `NO` and every other
participant's cell is the empty claim-group set; in particular only rows
of the observer's own cards carry `YES`/`NO` entries for the other
participants. -/
theorem init_sheet_characterization
    (allPlayers : List String) (handSizes : List ℕ) (player : String)
    (ownCards : List Card) (L : Ledger) (idx : ℕ)
    (hok : init allPlayers handSizes player ownCards = .ok L)
    (hidx : get_player_index allPlayers player = some idx)
    (c : Card) (hc : c ∉ ownCards) :
    cell L.sheet c idx = NO ∧
      ∀ p < allPlayers.length, p ≠ idx →
        cell L.sheet c p = (∅ : Finset ℤ) := by
  unfold init at hok
  split at hok
  · rw [hidx] at hok
    have hok2 : (if handSizes.getD idx 0 = ownCards.length then
        Except.ok (initLedger allPlayers handSizes player ownCards idx)
      else Except.error "assert: hand size does not match own cards") =
      Except.ok L := hok
    split at hok2
    · have hL := Except.ok.inj hok2
      have hsheet : L.sheet = cardList.map fun c =>
          if c ∈ ownCards then
            (List.range allPlayers.length).map fun p =>
              if p = idx then YES else NO
          else
            (List.range allPlayers.length).map fun p =>
              if p = idx then NO else ∅ := by
        rw [← hL]
        rfl
      have hlt : idx < allPlayers.length := get_player_index_lt hidx
      constructor
      · rw [hsheet, cell_map_init ownCards allPlayers.length idx c idx hlt,
          if_neg hc, if_pos rfl]
      · intro p hp hpne
        rw [hsheet, cell_map_init ownCards allPlayers.length idx c p hp,
          if_neg hc, if_neg hpne]
    · exact Except.noConfusion hok2
  · exact Except.noConfusion hok

theorem init_sheet_characterization_witness :
    cell c10L.sheet 5 0 = NO ∧ cell c10L.sheet 5 1 = (∅ : Finset ℤ) := by
  have h := init_sheet_characterization ["A", "B"] [1, 3] "A" [0] c10L 0
    (by decide) (by decide) 5 (by decide)
  exact ⟨h.1, h.2 1 (by decide) (by decide)⟩


end Clue
